import Mathlib

/-!
Verification development for the dependency-aware synthetic-data generation
planner (`src/synthetic-data-gen`): the Generation Graph model, the DAG
builder and the scenario planner.

The Python sources are shallowly embedded:
* JSON values (Python objects produced by `json.loads`) become the `Json`
  inductive; Python dicts become association lists that keep insertion order,
  since Python dicts preserve it.
* The stateful dataclass methods (`add_node`, `add_edge`, ...) become pure
  functions returning the updated `GenerationDAG`.
* Code that raises (`ValueError`, `KeyError`) becomes `Except`/`Option`
  valued functions.
* The networkx calls (`DiGraph`, `topological_generations`,
  `topological_sort`, `is_directed_acyclic_graph`, `find_cycle`) are external
  library calls; they are modelled by the Kahn elimination algorithm over the
  node/edge lists of the constructed digraph, which is how networkx
  implements them.  networkx leaves the tie-break order among simultaneously
  ready nodes implementation-defined, and the model fixes one such order; all
  theorems below use only tie-break-independent facts (existence, lengths,
  relative positions of edge endpoints).
-/

/-- JSON-like values: the result of `json.loads` on the model response and the
`json_data` payloads of existing records (null / bool / number / string /
array / object).  Python floats are not distinguished from ints here; none of
the verified code computes with numbers. -/
inductive Json where
  | null : Json
  | bool : Bool → Json
  | num : Int → Json
  | str : String → Json
  | arr : List Json → Json
  | obj : List (String × Json) → Json

/-- `d.get(k)` on a parsed JSON object: first binding of the key (keys of a
parsed Python dict are unique). Returns `none` on a missing key or when the
value is not an object. -/
def jget (j : Json) (k : String) : Option Json :=
  match j with
  | .obj fs => (fs.find? (fun p => decide (p.1 = k))).map (·.2)
  | _ => none

def asString? : Json → Option String
  | .str s => some s
  | _ => none

def asArr? : Json → Option (List Json)
  | .arr xs => some xs
  | _ => none

def asObj? : Json → Option (List (String × Json))
  | .obj fs => some fs
  | _ => none

def asStringList? : Json → Option (List String)
  | .arr xs => xs.mapM asString?
  | _ => none

/-- An object all of whose values are strings (the `Dict[str, str]` `mapping`
field of an edge). -/
def asStrPairs? : Json → Option (List (String × String))
  | .obj fs => fs.mapM (fun p => (asString? p.2).map (fun v => (p.1, v)))
  | _ => none

/-- Python truthiness of a JSON value (`bool(x)`): `None`, `False`, `0`, `""`,
`[]` and `{}` are falsy. -/
def jsonTruthy : Json → Bool
  | .null => false
  | .bool b => b
  | .num n => !(decide (n = 0))
  | .str s => !(decide (s = ""))
  | .arr xs => !xs.isEmpty
  | .obj fs => !fs.isEmpty

mutual

/-- Model of Python `repr` on values parsed from JSON, used by `str` on
containers (string escaping inside reprs is not modelled). -/
def pyRepr : Json → String
  | .null => "None"
  | .bool true => "True"
  | .bool false => "False"
  | .num n => toString n
  | .str s => "\x27" ++ s ++ "\x27"
  | .arr xs => "[" ++ pyReprList xs ++ "]"
  | .obj fs => "\x7b" ++ pyReprFields fs ++ "\x7d"

def pyReprList : List Json → String
  | [] => ""
  | [x] => pyRepr x
  | x :: y :: xs => pyRepr x ++ ", " ++ pyReprList (y :: xs)

def pyReprFields : List (String × Json) → String
  | [] => ""
  | [p] => "\x27" ++ p.1 ++ "\x27: " ++ pyRepr p.2
  | p :: q :: fs => "\x27" ++ p.1 ++ "\x27: " ++ pyRepr p.2 ++ ", " ++ pyReprFields (q :: fs)

end

/-- Model of Python `str` on values parsed from JSON, as used inside
f-strings. -/
def pyStr : Json → String
  | .str s => s
  | j => pyRepr j

mutual

/-- Model of `json.dumps` with its default separators. -/
def jsonDumps : Json → String
  | .null => "null"
  | .bool true => "true"
  | .bool false => "false"
  | .num n => toString n
  | .str s => "\"" ++ s ++ "\""
  | .arr xs => "[" ++ jsonDumpsList xs ++ "]"
  | .obj fs => "\x7b" ++ jsonDumpsFields fs ++ "\x7d"

def jsonDumpsList : List Json → String
  | [] => ""
  | [x] => jsonDumps x
  | x :: y :: xs => jsonDumps x ++ ", " ++ jsonDumpsList (y :: xs)

def jsonDumpsFields : List (String × Json) → String
  | [] => ""
  | [p] => "\"" ++ p.1 ++ "\": " ++ jsonDumps p.2
  | p :: q :: fs => "\"" ++ p.1 ++ "\": " ++ jsonDumps p.2 ++ ", " ++ jsonDumpsFields (q :: fs)

end

/-! ## Data structures (`dag_builder.py`, `@dataclass` definitions) -/

/-- `DAGNode`: self-contained node with everything needed for generation.
Field order and defaults follow the dataclass. -/
structure DAGNode where
  id : String
  schema_id : String
  instruction : String
  context : List (String × Json) := []
  depends_on : List String := []
  reference_examples : List Json := []
  schema : List (String × Json) := []
  update_existing_id : Option String := none

/-- `DAGEdge`: simple dependency edge. -/
structure DAGEdge where
  source : String
  target : String
  relationship : String := "data_flow"
  mapping : List (String × String) := []
deriving DecidableEq

/-- `GenerationDAG`: container for the complete DAG.  The Python `nodes`
dict (insertion ordered, unique keys) is an association list. -/
structure GenerationDAG where
  task : String
  nodes : List (String × DAGNode) := []
  edges : List DAGEdge := []

/-- `self.nodes[node.id] = node`: overwrite in place if the key exists
(keeping its position, as a Python dict does), else append. -/
def insertAssoc : List (String × DAGNode) → DAGNode → List (String × DAGNode)
  | [], n => [(n.id, n)]
  | (k, m) :: rest, n =>
    if k = n.id then (k, n) :: rest else (k, m) :: insertAssoc rest n

/-- `GenerationDAG.add_node`. -/
def GenerationDAG.add_node (g : GenerationDAG) (n : DAGNode) : GenerationDAG :=
  { g with nodes := insertAssoc g.nodes n }

/-- `edge.target in self.nodes`. -/
def containsKeyN (nodes : List (String × DAGNode)) (k : String) : Bool :=
  nodes.any (fun p => decide (p.1 = k))

/-- First binding of a node id in the `nodes` dict. -/
def lookupNode (nodes : List (String × DAGNode)) (k : String) : Option DAGNode :=
  (nodes.find? (fun p => decide (p.1 = k))).map (·.2)

/-- The in-place `self.nodes[edge.target].depends_on.append(edge.source)`
(performed only when the source is not already listed): rewrite the first
binding of the target key. -/
def backfill (nodes : List (String × DAGNode)) (src tgt : String) :
    List (String × DAGNode) :=
  match nodes with
  | [] => []
  | (k, n) :: rest =>
    if k = tgt then
      (k, if src ∈ n.depends_on then n
          else { n with depends_on := n.depends_on ++ [src] }) :: rest
    else (k, n) :: backfill rest src tgt

/-- `GenerationDAG.add_edge`: append the edge; back-fill the `depends_on` of the target node only when the target id is currently a node of the graph. -/
def GenerationDAG.add_edge (g : GenerationDAG) (e : DAGEdge) : GenerationDAG :=
  let g' := { g with edges := g.edges ++ [e] }
  if containsKeyN g.nodes e.target then
    { g' with nodes := backfill g.nodes e.source e.target }
  else g'

/-! ## Serialization (`to_dict` / `from_dict`) -/

/-- One entry of the `"nodes"` list emitted by `GenerationDAG.to_dict`.
Exactly the keys written by the source; note the runtime-attached `schema`
field is **not** serialized. -/
structure NodeRecord where
  id : String
  schema_id : String
  instruction : String
  context : List (String × Json)
  depends_on : List String
  reference_examples : List Json
  update_existing_id : Option String

/-- The flat structure produced by `GenerationDAG.to_dict`.  An edge dict
carries exactly the four `DAGEdge` fields, so `DAGEdge` itself serves as the
edge record. -/
structure DAGRecord where
  task : String
  nodes : List NodeRecord
  edges : List DAGEdge

def nodeRecordOf (n : DAGNode) : NodeRecord :=
  { id := n.id
    schema_id := n.schema_id
    instruction := n.instruction
    context := n.context
    depends_on := n.depends_on
    reference_examples := n.reference_examples
    update_existing_id := n.update_existing_id }

/-- `GenerationDAG.to_dict`: serialize to the flat structure, iterating
`self.nodes.values()` in insertion order. -/
def GenerationDAG.to_dict (g : GenerationDAG) : DAGRecord :=
  { task := g.task
    nodes := g.nodes.map (fun p => nodeRecordOf p.2)
    edges := g.edges }

/-- The node `from_dict` constructs from one node record (every serialized
key is present; `schema` is left at its dataclass default `{}`). -/
def nodeOfRecord (r : NodeRecord) : DAGNode :=
  { id := r.id
    schema_id := r.schema_id
    instruction := r.instruction
    context := r.context
    depends_on := r.depends_on
    reference_examples := r.reference_examples
    schema := []
    update_existing_id := r.update_existing_id }

/-- `GenerationDAG.from_dict`: rebuild the graph through `add_node` and
`add_edge`, nodes first, in record order. -/
def GenerationDAG.from_dict (r : DAGRecord) : GenerationDAG :=
  let d0 : GenerationDAG := { task := r.task, nodes := [], edges := [] }
  let d1 := r.nodes.foldl (fun d nr => d.add_node (nodeOfRecord nr)) d0
  r.edges.foldl (fun d e => d.add_edge e) d1

/-! ## Schema catalog and existing-data snapshots -/

/-- One row of the schema catalog as fetched from the store: a dict with
`app`, `component_name`, optional `description` and a JSON-schema-like
`schema` structure. -/
structure SchemaRef where
  app : String
  component_name : String
  description : Option String := none
  schema : List (String × Json) := []

/-- The schema key rendered as `app` + `"/"` + `component_name`. -/
def schemaKey (s : SchemaRef) : String := s.app ++ "/" ++ s.component_name

/-- Keys of the `valid_schemas` dict comprehension built in
`build_dag_from_task`: first-occurrence order, duplicates collapsed (a Python
dict keeps the first position of a repeated key). -/
def validSchemaKeys (schemas : List SchemaRef) : List String :=
  schemas.foldl (fun acc s => if schemaKey s ∈ acc then acc else acc ++ [schemaKey s]) []

/-- the schema structure looked up in the `valid_schemas` dict: the value stored in
the dict comprehension for a repeated key is the last one. -/
def lookupSchemaStruct (schemas : List SchemaRef) (sid : String) : List (String × Json) :=
  match schemas.reverse.find? (fun s => decide (schemaKey s = sid)) with
  | some s => s.schema
  | none => []

/-- One row of the existing-data snapshot: `app`/`component_name` are always
present, `id` may be missing (the code falls back to `unknown`), `json_data`
defaults to `{}`. -/
structure ExistingRecord where
  app : String
  component_name : String
  id : Option String := none
  json_data : List (String × Json) := []

/-- The display name: the first truthy value among the `name`, `title` and
`subject` fields, else `unnamed` — Python `or` falls through falsy values
(missing keys, `None`, empty strings, ...). -/
def displayName (data : List (String × Json)) : String :=
  match (jget (.obj data) "name").filter jsonTruthy with
  | some v => pyStr v
  | none =>
    match (jget (.obj data) "title").filter jsonTruthy with
    | some v => pyStr v
    | none =>
      match (jget (.obj data) "subject").filter jsonTruthy with
      | some v => pyStr v
      | none => "unnamed"

/-! ## Prompt construction (`build_dag_prompt`, `build_scenario_prompt`) -/

/-- `- {schema_id}: {desc}` lines shared by both prompts. -/
def schemasText (schemas : List SchemaRef) : String :=
  String.intercalate "\n"
    (schemas.map (fun s => "- " ++ schemaKey s ++ ": " ++ s.description.getD "No description"))

/-- One `- {app}/{component}: id="..." name="..."` line of the DAG-builder
existing-data summary, plus its optional `fields:` line. -/
def dagRecordLine (r : ExistingRecord) : String :=
  "- " ++ r.app ++ "/" ++ r.component_name ++ ": id=\"" ++ r.id.getD "unknown" ++
    "\" name=\"" ++ displayName r.json_data ++ "\"\n" ++
    (match jget (.obj r.json_data) "fields" with
     | some v => "  fields: " ++ jsonDumps v ++ "\n"
     | none => "")

/-- The `existing_text` block of `build_dag_prompt`: emitted only when the
full list is non-empty, and walking `existing_data[:10]`. -/
def dagExistingText (existing_data : List ExistingRecord) : String :=
  if existing_data.isEmpty then ""
  else
    "\n\nEXISTING DATA (set update_existing_id to add to these):\n" ++
      String.join ((existing_data.take 10).map dagRecordLine)

/-- `build_dag_prompt(task, schemas, existing_data)`. -/
def build_dag_prompt (task : String) (schemas : List SchemaRef)
    (existing_data : List ExistingRecord) : String :=
  "TASK (what the AI agent must do): " ++ task ++
    "\n\nAVAILABLE SCHEMAS (you may ONLY use these - no others):\n" ++
    schemasText schemas ++ "\n" ++ dagExistingText existing_data ++
    "\nCreate synthetic test data for this task. Each node = one data object to generate.\nRemember: You\x27re creating DATA that will exist in the environment, not modeling the agent\x27s workflow.\nONLY use schema_ids from the list above."

/-- One record line of the scenario-planner existing-data summary (no
`fields:` line there). -/
def scenarioRecordLine (r : ExistingRecord) : String :=
  "- " ++ r.app ++ "/" ++ r.component_name ++ ": id=\"" ++ r.id.getD "unknown" ++
    "\" name=\"" ++ displayName r.json_data ++ "\"\n"

/-- The `existing_text` block of `build_scenario_prompt`. -/
def scenarioExistingText (existing_data : List ExistingRecord) : String :=
  if existing_data.isEmpty then ""
  else
    "\n\nEXISTING DATA IN ENVIRONMENT:\n" ++
      String.join ((existing_data.take 10).map scenarioRecordLine)

/-- The `world_text` block: present only for a truthy (non-empty) existing
world string. -/
def worldText (existing_world : Option String) : String :=
  match existing_world with
  | some w => if w = "" then "" else "\n\nEXISTING WORLD (extend, don\x27t replace):\n" ++ w
  | none => ""

/-- `build_scenario_prompt(tasks, schemas, existing_world, existing_data)`. -/
def build_scenario_prompt (tasks : List String) (schemas : List SchemaRef)
    (existing_world : Option String) (existing_data : List ExistingRecord) : String :=
  "TASKS (what the AI agent should be able to do):\n" ++
    String.intercalate "\n" (tasks.map (fun t => "- " ++ t)) ++
    "\n\nAVAILABLE SCHEMAS (you may ONLY use these):\n" ++
    schemasText schemas ++ "\n" ++ worldText existing_world ++ "\n" ++
    scenarioExistingText existing_data ++
    "\nDesign a coherent environment that enables ALL these tasks.\nRemember: Create PRECONDITIONS only. The agent creates the outputs (issues, drafts, etc).\n\nRespond with valid JSON matching the output format specified in the system prompt."

/-! ## The networkx digraph model (`DAGBuilder.to_networkx`) -/

/-- The part of an `nx.DiGraph` the verified code observes: its node list in
insertion order (without duplicates) and its edge list (without duplicates).
Node/edge attribute dicts carry no behaviour and are omitted. -/
structure NxDiGraph where
  nodeList : List String
  edgeList : List (String × String)

/-- `G.add_node`: a no-op on an already present node. -/
def nxAddNode (G : NxDiGraph) (v : String) : NxDiGraph :=
  if v ∈ G.nodeList then G else { G with nodeList := G.nodeList ++ [v] }

/-- `G.add_edge`: silently inserts missing endpoints as nodes. -/
def nxAddEdge (G : NxDiGraph) (u v : String) : NxDiGraph :=
  let G' := nxAddNode (nxAddNode G u) v
  if (u, v) ∈ G'.edgeList then G' else { G' with edgeList := G'.edgeList ++ [(u, v)] }

/-- `DAGBuilder.to_networkx`: add every node of the dag, then every edge. -/
def to_networkx (dag : GenerationDAG) : NxDiGraph :=
  let G := dag.nodes.foldl (fun G p => nxAddNode G p.1) ⟨[], []⟩
  dag.edges.foldl (fun G e => nxAddEdge G e.source e.target) G

/-! ## Kahn elimination (model of the networkx topological algorithms) -/

/-- `v` has an incoming edge from the remaining subgraph. -/
def hasIncoming (edges : List (String × String)) (remaining : List String)
    (v : String) : Bool :=
  edges.any (fun e => decide (e.2 = v) && decide (e.1 ∈ remaining))

/-- Kahn elimination producing the topological generations
(`nx.topological_generations`): repeatedly emit all remaining nodes without
incoming edges from the remaining subgraph.  `none` models the
`NetworkXUnfeasible` raised on a cyclic graph.  The fuel argument only bounds
the recursion; `fuel ≥ remaining.length` always suffices because every
successful round removes at least one node. -/
def kahnAux (edges : List (String × String)) (fuel : Nat) (remaining : List String) :
    Option (List (List String)) :=
  if remaining.isEmpty then some []
  else
    match fuel with
    | 0 => none
    | fuel + 1 =>
      let zero := remaining.filter (fun v => !hasIncoming edges remaining v)
      if zero.isEmpty then none
      else
        (kahnAux edges fuel (remaining.filter (fun v => hasIncoming edges remaining v))).map
          (fun ws => zero :: ws)

def kahnWaves (G : NxDiGraph) : Option (List (List String)) :=
  kahnAux G.edgeList G.nodeList.length G.nodeList

/-- The remaining subgraph at the point where Kahn elimination stalls (empty
when it does not stall). -/
def stuckSet (edges : List (String × String)) (fuel : Nat) (remaining : List String) :
    List String :=
  if remaining.isEmpty then []
  else
    match fuel with
    | 0 => remaining
    | fuel + 1 =>
      let zero := remaining.filter (fun v => !hasIncoming edges remaining v)
      if zero.isEmpty then remaining
      else stuckSet edges fuel (remaining.filter (fun v => hasIncoming edges remaining v))

/-- `nx.is_directed_acyclic_graph`: networkx answers by attempting a
topological sort. -/
def nxIsDag (G : NxDiGraph) : Bool := (kahnWaves G).isSome

/-- `get_generation_order` (`[list(gen) for gen in nx.topological_generations(G)]`);
`none` models the exception escaping on a cyclic graph. -/
def get_generation_order (dag : GenerationDAG) : Option (List (List String)) :=
  kahnWaves (to_networkx dag)

/-- `get_linear_order` (`list(nx.topological_sort(G))`), modelled as the
concatenation of the topological generations — one of the valid topological
orders; the networkx tie-break among simultaneously ready nodes is
implementation-defined and no theorem below depends on it. -/
def get_linear_order (dag : GenerationDAG) : Option (List String) :=
  (get_generation_order dag).map List.flatten

/-! ## Cycle extraction (model of `nx.find_cycle`) -/

/-- Some predecessor of `v` inside the stalled subgraph `S`. -/
def findPred (edges : List (String × String)) (S : List String) (v : String) :
    Option String :=
  S.find? (fun u => decide ((u, v) ∈ edges))

/-- Walk predecessors inside `S` until a vertex repeats, then cut the visited
trail down to one cycle.  `seen` is the trail walked so far, most recent
first, so consecutive elements of `v :: seen` are edges of the graph. -/
def chase (edges : List (String × String)) (S : List String) :
    Nat → String → List String → Option (List String)
  | 0, _, _ => none
  | fuel + 1, v, seen =>
    if v ∈ seen then
      some (v :: (seen.takeWhile (fun y => decide (y ≠ v)) ++ [v]))
    else
      match findPred edges S v with
      | none => none
      | some u => chase edges S fuel u (v :: seen)

/-- Model of `nx.find_cycle`: locate the subgraph where Kahn elimination
stalls (every vertex there keeps an incoming edge) and walk predecessors in it
until a vertex repeats.  The returned list is the cycle as a vertex sequence
`v0, v1, ..., v0` (networkx reports the same cycle as its list of edges). -/
def findCycle (edges : List (String × String)) (nodes : List String) :
    Option (List String) :=
  match stuckSet edges nodes.length nodes with
  | [] => none
  | v :: rest => chase edges (v :: rest) ((v :: rest).length + 1) v []

/-! ## DAG validation and response parsing (`DAGBuilder`) -/

/-- The `ValueError`s raised by `DAGBuilder`, plus the hard failure on a model
response that does not match the documented JSON shape (`KeyError` on a
missing required key, or an ill-typed field). -/
inductive BuildError where
  | malformedResponse : BuildError
  | invalidSchema (node_id schema_id : String) (valid : List String) : BuildError
  | cycleDetected (cycle : List String) : BuildError
deriving DecidableEq

/-- `DAGBuilder._validate_dag`: first node (in insertion order) whose
`schema_id` is not a key of the supplied schema dict aborts with the
"invalid schema" error carrying the offending node id and the full key list;
then the acyclicity check, whose error carries one concrete cycle. -/
def validate_dag (dag : GenerationDAG) (valid_keys : List String) :
    Except BuildError Unit :=
  match dag.nodes.find? (fun p => !(decide (p.2.schema_id ∈ valid_keys))) with
  | some p => .error (.invalidSchema p.1 p.2.schema_id valid_keys)
  | none =>
    let G := to_networkx dag
    if nxIsDag G then .ok ()
    else .error (.cycleDetected ((findCycle G.edgeList G.nodeList).getD []))

/-- One node dict of the model response (`_parse_response` node loop).
`node_data["id"]` is mandatory (`KeyError` otherwise); every other field
falls back to its default when missing.  The model is stricter than Python on
ill-typed present fields (Python would store the ill-typed value and fail
later); such responses fail the parse here. -/
def parse_node (schemas : List SchemaRef) (j : Json) : Option DAGNode := do
  let id ← (jget j "id").bind asString?
  let schema_id ← match jget j "schema_id" with
    | none => some ""
    | some v => asString? v
  let instruction ← match jget j "instruction" with
    | none => some ""
    | some v => asString? v
  let context ← match jget j "context" with
    | none => some []
    | some v => asObj? v
  let depends_on ← match jget j "depends_on" with
    | none => some []
    | some v => asStringList? v
  let reference_examples ← match jget j "reference_examples" with
    | none => some []
    | some v => asArr? v
  let update_existing_id ← match jget j "update_existing_id" with
    | none => some none
    | some .null => some none
    | some v => (asString? v).map some
  pure { id := id
         schema_id := schema_id
         instruction := instruction
         context := context
         depends_on := depends_on
         reference_examples := reference_examples
         schema := lookupSchemaStruct schemas schema_id
         update_existing_id := update_existing_id }

/-- One edge dict of the model response (`_parse_response` edge loop): every
field has a default. -/
def parse_edge (j : Json) : Option DAGEdge := do
  let source ← match jget j "source" with
    | none => some ""
    | some v => asString? v
  let target ← match jget j "target" with
    | none => some ""
    | some v => asString? v
  let relationship ← match jget j "relationship" with
    | none => some "data_flow"
    | some v => asString? v
  let mapping ← match jget j "mapping" with
    | none => some []
    | some v => asStrPairs? v
  pure { source := source, target := target, relationship := relationship, mapping := mapping }

/-- `DAGBuilder._parse_response`: `dag_json.get("nodes", [])` /
`dag_json.get("edges", [])`, nodes added through `add_node` first, then edges
through `add_edge`. -/
def parse_response (task : String) (dag_json : Json) (schemas : List SchemaRef) :
    Option GenerationDAG := do
  let nodesJ ← match jget dag_json "nodes" with
    | none => some []
    | some v => asArr? v
  let edgesJ ← match jget dag_json "edges" with
    | none => some []
    | some v => asArr? v
  let nodes ← nodesJ.mapM (parse_node schemas)
  let edges ← edgesJ.mapM parse_edge
  let d0 : GenerationDAG := { task := task, nodes := [], edges := [] }
  let d1 := nodes.foldl (fun d n => d.add_node n) d0
  pure (edges.foldl (fun d e => d.add_edge e) d1)

/-- `DAGBuilder.build_dag_from_task`.  The single outbound model call is
external: its reply is the `response` argument, and the user prompt sent with
it is returned as the first component.  Parse, then validate; any error means
no graph is returned. -/
def build_dag_from_task (task : String) (schemas : List SchemaRef)
    (existing_data : List ExistingRecord) (response : Json) :
    String × Except BuildError GenerationDAG :=
  let prompt := build_dag_prompt task schemas existing_data
  match parse_response task response schemas with
  | none => (prompt, .error .malformedResponse)
  | some dag =>
    match validate_dag dag (validSchemaKeys schemas) with
    | .ok _ => (prompt, .ok dag)
    | .error e => (prompt, .error e)

/-! ## Scenario planner (`scenario_planner.py`) -/

/-- `Scene`: a coherent grouping of data to generate.  Scene nodes are kept
as the raw dicts of the response (`nodes=s.get("nodes", [])`). -/
structure Scene where
  name : String
  description : String
  entity_refs : List String
  nodes : List Json

/-- `EnvironmentPlan`: complete environment setup plan. -/
structure EnvironmentPlan where
  world_markdown : String
  scenes : List Scene

/-- One scene dict of the response: `s["name"]` is mandatory (`KeyError`
otherwise), everything else defaults. -/
def parseScene (j : Json) : Option Scene := do
  let name ← (jget j "name").bind asString?
  let description ← match jget j "description" with
    | none => some ""
    | some v => asString? v
  let entity_refs ← match jget j "entity_refs" with
    | none => some []
    | some v => asStringList? v
  let nodes ← match jget j "nodes" with
    | none => some []
    | some v => asArr? v
  pure { name := name, description := description, entity_refs := entity_refs, nodes := nodes }

/-- Parsing the scenario response into an `EnvironmentPlan`
(`result.get("scenes", [])`, `result.get("world_markdown", "")`). -/
def parseScenarioResponse (result : Json) : Option EnvironmentPlan := do
  let scenesJ ← match jget result "scenes" with
    | none => some []
    | some v => asArr? v
  let scenes ← scenesJ.mapM parseScene
  let world ← match jget result "world_markdown" with
    | none => some ""
    | some v => asString? v
  pure { world_markdown := world, scenes := scenes }

/-- One `logger.warning` record of the scenario planner soft validation:
scene name, the `id` value of the node if any (as rendered in the message), and
the invalid `schema_id`. -/
structure SchemaWarning where
  scene_name : String
  node_id : Option String
  schema_id : String
deriving DecidableEq

/-- `node.get("schema_id", "")` of a scene-node dict; a non-string value is
compared (and logged) through its rendering. -/
def sceneNodeSchemaId (fs : List (String × Json)) : String :=
  match (fs.find? (fun p => decide (p.1 = "schema_id"))).map (·.2) with
  | some v => pyStr v
  | none => ""

/-- `node.get("id")` of a scene-node dict, as rendered in the warning. -/
def sceneNodeIdTag (fs : List (String × Json)) : Option String :=
  ((fs.find? (fun p => decide (p.1 = "id"))).map (·.2)).map pyStr

/-- Soft validation of one scene node (`node.get("schema_id", "")`): a
warning when the schema id is not in the valid set, nothing otherwise.
`none` models the `AttributeError` Python would raise on a non-dict node
entry. -/
def scanSceneNode (valid : List String) (scene_name : String) (j : Json) :
    Option (List SchemaWarning) :=
  match j with
  | .obj fs =>
    if sceneNodeSchemaId fs ∈ valid then some []
    else some [{ scene_name := scene_name, node_id := sceneNodeIdTag fs,
                 schema_id := sceneNodeSchemaId fs }]
  | _ => none

/-- The inner `for node in scene.nodes:` loop. -/
def scanNodes (valid : List String) (scene_name : String) :
    List Json → Option (List SchemaWarning)
  | [] => some []
  | j :: rest => do
    let w ← scanSceneNode valid scene_name j
    let ws ← scanNodes valid scene_name rest
    pure (w ++ ws)

/-- The full `for scene in plan.scenes: for node in scene.nodes:` warning
loop. -/
def collectWarnings (valid : List String) : List Scene → Option (List SchemaWarning)
  | [] => some []
  | scene :: rest => do
    let ws1 ← scanNodes valid scene.name scene.nodes
    let ws2 ← collectWarnings valid rest
    pure (ws1 ++ ws2)

/-- `ScenarioPlanner.plan_environment`: one model call (reply passed in as
`response`, prompt returned as first component), parse into a plan, then soft
schema validation that only records warnings — the parsed plan is returned
as is. -/
def plan_environment (tasks : List String) (schemas : List SchemaRef)
    (existing_world : Option String) (existing_data : List ExistingRecord)
    (response : Json) : String × Option (EnvironmentPlan × List SchemaWarning) :=
  let prompt := build_scenario_prompt tasks schemas existing_world existing_data
  match parseScenarioResponse response with
  | none => (prompt, none)
  | some plan =>
    match collectWarnings (validSchemaKeys schemas) plan.scenes with
    | none => (prompt, none)
    | some ws => (prompt, some (plan, ws))

/-! ## The `output_dag` pipeline (`main.py`) -/

/-- Observable outcome of `output_dag`: either an early `{"error": ...}`
return, or the pipeline reached the model call (the `modelCalled`
constructor records the user prompt that was sent and what the builder made
of the reply).  No `modelCalled` result means no outbound model request was
issued. -/
inductive OutputDagResult where
  | errorResult (msg : String) : OutputDagResult
  | modelCalled (prompt : String) (outcome : Except BuildError GenerationDAG) : OutputDagResult

/-- `output_dag(task, environment_id, model)`.  The Supabase lookups are
external collaborators, so their results are arguments: `env_row` is the
environment row (if found), and `schemas` / `existing_data` are what the
fetch helpers returned for the connectors of the environment.  Guards run in
source order: missing environment, no connectors, then `if not schemas:`
returning "No schemas available" — all before the builder (and hence the
model call) is reached. -/
def output_dag (environment_id : String) (env_row : Option Json)
    (schemas : List SchemaRef) (existing_data : List ExistingRecord)
    (task : String) (model_response : Json) : OutputDagResult :=
  match env_row with
  | none => .errorResult ("Environment not found: " ++ environment_id)
  | some row =>
    let connectors := (jget row "connectors").getD (.arr [])
    let allowed_apps := match connectors with
      | .arr xs => xs
      | _ => []
    if allowed_apps.isEmpty then
      .errorResult "No connectors configured for this environment"
    else if schemas.isEmpty then
      .errorResult "No schemas available"
    else
      let r := build_dag_from_task task schemas existing_data model_response
      .modelCalled r.1 r.2

/-! ## List helpers for positions and partitions -/

/-- Index of the first occurrence of `x` in `l` (the position "where `x`
appears" in a linear order). -/
def listPos (l : List String) (x : String) : Nat :=
  l.findIdx (fun y => decide (y = x))

/-- Index of the first wave containing `x`. -/
def waveIdx (ws : List (List String)) (x : String) : Nat :=
  ws.findIdx (fun w => decide (x ∈ w))

/-! ## Derived notions used by the specification statements -/

/-- A node as `from_dict` reconstructs it: the runtime-attached `schema`
structure reset to the dataclass default `{}` (it is not serialized). -/
def stripNode (n : DAGNode) : DAGNode :=
  { n with schema := [] }

/-- The graph with the runtime-attached `schema` of every node reset. -/
def stripSchemas (g : GenerationDAG) : GenerationDAG :=
  { g with nodes := g.nodes.map (fun p => (p.1, stripNode p.2)) }

/-- The `depends_on` relation of a graph: all pairs `(source, target)` with
`source` listed in `target.depends_on`. -/
def dependsOnRel (g : GenerationDAG) : List (String × String) :=
  g.nodes.flatMap (fun p => p.2.depends_on.map (fun d => (d, p.1)))

/-- Every consecutive pair of the list is an edge of the graph. -/
def edgeChain (edges : List (String × String)) : List String → Prop
  | [] => True
  | [_] => True
  | a :: b :: rest => (a, b) ∈ edges ∧ edgeChain edges (b :: rest)

/-- `c` is a concrete cycle of the graph: a closed, non-trivial walk along
edges, written as its vertex sequence `v0, v1, ..., v0`. -/
def isCycleOf (edges : List (String × String)) (c : List String) : Prop :=
  2 ≤ c.length ∧ c.head? = c.getLast? ∧ edgeChain edges c

/-! ## Concrete inputs used by counterexamples and witnesses -/

/-- Graph with one node `b` carrying a non-empty runtime `schema` and a
dangling-source edge `a → b` that is not reflected in `b.depends_on`. -/
def roundTripCounterexample : GenerationDAG :=
  { task := "t"
    nodes := [("b", { id := "b", schema_id := "gmail/thread", instruction := "write it",
                      schema := [("type", Json.str "object")] })]
    edges := [{ source := "a", target := "b" }] }

/-- A well-formed two-node graph `a → b` whose edge is already reflected in
`b.depends_on`. -/
def simpleChainGraph : GenerationDAG :=
  { task := "w"
    nodes := [("a", { id := "a", schema_id := "s", instruction := "make a" }),
              ("b", { id := "b", schema_id := "s", instruction := "make b",
                      depends_on := ["a"] })]
    edges := [{ source := "a", target := "b" }] }

/-- Nodes inserted in order `b`, `a` with `b.depends_on = ["a"]` but no edge
recorded: the dependency exists only in `depends_on`. -/
def impliedDependencyGraph : GenerationDAG :=
  { task := "t"
    nodes := [("b", { id := "b", schema_id := "s", instruction := "", depends_on := ["a"] }),
              ("a", { id := "a", schema_id := "s", instruction := "" })]
    edges := [] }

/-- `depends_on` entries forming the cycle `a ↔ b`, with an empty edge list. -/
def dependsOnCycleGraph : GenerationDAG :=
  { task := "t"
    nodes := [("a", { id := "a", schema_id := "s", instruction := "", depends_on := ["b"] }),
              ("b", { id := "b", schema_id := "s", instruction := "", depends_on := ["a"] })]
    edges := [] }

/-- Two nodes with the edge cycle `a → b → a`. -/
def edgeCycleGraph : GenerationDAG :=
  { task := "t"
    nodes := [("a", { id := "a", schema_id := "s", instruction := "" }),
              ("b", { id := "b", schema_id := "s", instruction := "" })]
    edges := [{ source := "a", target := "b" }, { source := "b", target := "a" }] }

/-- One node `b` plus an edge from the phantom id `a` (not a node). -/
def phantomEdgeGraph : GenerationDAG :=
  { task := "t"
    nodes := [("b", { id := "b", schema_id := "s", instruction := "" })]
    edges := [{ source := "a", target := "b" }] }

/-- One node `b` whose `depends_on` already lists `a` twice (such a state is
reachable: `from_dict` and `_parse_response` copy `depends_on` verbatim from
the input). -/
def dupDependsGraph : GenerationDAG :=
  { task := "t"
    nodes := [("a", { id := "a", schema_id := "s", instruction := "" }),
              ("b", { id := "b", schema_id := "s", instruction := "", depends_on := ["a", "a"] })]
    edges := [] }

/-- A one-schema catalog. -/
def schemaRefGmail : SchemaRef :=
  { app := "gmail", component_name := "thread" }

/-- A model response that declares a node with a schema id outside the
catalog. -/
def badSchemaResponse : Json :=
  Json.obj [("nodes", Json.arr [Json.obj [("id", Json.str "n1"),
    ("schema_id", Json.str "bad/x")]])]

/-- A scenario response with one scene whose single node uses an invalid
schema id. -/
def invalidSceneResponse : Json :=
  Json.obj [("world_markdown", Json.str "# World"),
    ("scenes", Json.arr [Json.obj [("name", Json.str "scene one"),
      ("nodes", Json.arr [Json.obj [("id", Json.str "n1"),
        ("schema_id", Json.str "bad/x")]])]])]

/-- The single scene-node dict of `invalidSceneResponse`. -/
def invalidSceneNodeFields : List (String × Json) :=
  [("id", Json.str "n1"), ("schema_id", Json.str "bad/x")]

/-- The plan `invalidSceneResponse` parses to. -/
def invalidScenePlan : EnvironmentPlan :=
  EnvironmentPlan.mk "# World"
    [Scene.mk "scene one" "" [] [Json.obj invalidSceneNodeFields]]

/-- An environment row with one connector configured. -/
def gmailEnvRow : Json :=
  Json.obj [("connectors", Json.arr [Json.str "gmail"])]

theorem length_filter_add (p : String → Bool) (l : List String) :
    (l.filter p).length + (l.filter (fun v => !p v)).length = l.length := by
  induction l with
  | nil => simp
  | cons a l ih =>
    cases hpa : p a <;> simp [List.filter_cons, hpa] <;> omega

theorem listPos_cons (y : String) (l : List String) (x : String) :
    listPos (y :: l) x = if y = x then 0 else listPos l x + 1 := by
  by_cases h : y = x <;> simp [listPos, List.findIdx_cons, h]

theorem listPos_lt_length {l : List String} {x : String} (h : x ∈ l) :
    listPos l x < l.length := by
  induction l with
  | nil => cases h
  | cons a l ih =>
    rw [listPos_cons]
    by_cases hax : a = x
    · simp [hax]
    · have hx : x ∈ l := by
        cases List.mem_cons.mp h with
        | inl h' => exact absurd h'.symm hax
        | inr h' => exact h'
      simp [hax, Nat.succ_lt_succ (ih hx)]

theorem listPos_append_left {l₁ : List String} (l₂ : List String) {x : String}
    (h : x ∈ l₁) : listPos (l₁ ++ l₂) x = listPos l₁ x := by
  induction l₁ with
  | nil => cases h
  | cons a l ih =>
    rw [List.cons_append, listPos_cons, listPos_cons]
    by_cases hax : a = x
    · simp [hax]
    · have hx : x ∈ l := by
        cases List.mem_cons.mp h with
        | inl h' => exact absurd h'.symm hax
        | inr h' => exact h'
      simp [hax, ih hx]

theorem listPos_append_right {l₁ l₂ : List String} {x : String}
    (h : x ∉ l₁) : listPos (l₁ ++ l₂) x = l₁.length + listPos l₂ x := by
  induction l₁ with
  | nil => simp [listPos]
  | cons a l ih =>
    have hax : a ≠ x := fun hh => h (hh ▸ List.mem_cons_self a l)
    have hx : x ∉ l := fun hh => h (List.mem_cons_of_mem a hh)
    rw [List.cons_append, listPos_cons]
    simp [hax, ih hx]
    omega

theorem waveIdx_cons (w : List String) (ws : List (List String)) (x : String) :
    waveIdx (w :: ws) x = if x ∈ w then 0 else waveIdx ws x + 1 := by
  by_cases h : x ∈ w <;> simp [waveIdx, List.findIdx_cons, h]

/-! ## Kahn elimination: success facts -/


/-! ## Kahn elimination: correctness facts -/

theorem kahnAux_flatten_length (edges : List (String × String)) :
    ∀ (fuel : Nat) (remaining : List String) (ws : List (List String)),
      kahnAux edges fuel remaining = some ws →
      ws.flatten.length = remaining.length := by
  intro fuel
  induction fuel with
  | zero =>
    intro remaining ws h
    rw [kahnAux] at h
    by_cases he : remaining.isEmpty
    · rw [if_pos he] at h
      cases h
      rw [List.isEmpty_iff] at he
      simp [he]
    · rw [if_neg he] at h
      cases h
  | succ fuel ih =>
    intro remaining ws h
    rw [kahnAux] at h
    by_cases he : remaining.isEmpty
    · rw [if_pos he] at h
      cases h
      rw [List.isEmpty_iff] at he
      simp [he]
    · rw [if_neg he] at h
      simp only at h
      by_cases hz : (remaining.filter (fun v => !hasIncoming edges remaining v)).isEmpty
      · rw [if_pos hz] at h; cases h
      · rw [if_neg hz, Option.map_eq_some'] at h
        obtain ⟨ws', hws', rfl⟩ := h
        have hlen := ih _ _ hws'
        have hpart := length_filter_add (fun v => hasIncoming edges remaining v) remaining
        simp only [List.flatten_cons, List.length_append, hlen]
        omega

theorem kahnAux_mem_flatten (edges : List (String × String)) :
    ∀ (fuel : Nat) (remaining : List String) (ws : List (List String)),
      kahnAux edges fuel remaining = some ws →
      ∀ x, x ∈ ws.flatten ↔ x ∈ remaining := by
  intro fuel
  induction fuel with
  | zero =>
    intro remaining ws h x
    rw [kahnAux] at h
    by_cases he : remaining.isEmpty
    · rw [if_pos he] at h
      cases h
      rw [List.isEmpty_iff] at he
      simp [he]
    · rw [if_neg he] at h
      cases h
  | succ fuel ih =>
    intro remaining ws h x
    rw [kahnAux] at h
    by_cases he : remaining.isEmpty
    · rw [if_pos he] at h
      cases h
      rw [List.isEmpty_iff] at he
      simp [he]
    · rw [if_neg he] at h
      simp only at h
      by_cases hz : (remaining.filter (fun v => !hasIncoming edges remaining v)).isEmpty
      · rw [if_pos hz] at h; cases h
      · rw [if_neg hz, Option.map_eq_some'] at h
        obtain ⟨ws', hws', rfl⟩ := h
        have hmem := ih _ _ hws' x
        simp only [List.flatten_cons, List.mem_append, hmem, List.mem_filter]
        constructor
        · rintro (h1 | h2)
          · exact h1.1
          · exact h2.1
        · intro hx
          by_cases hin : hasIncoming edges remaining x
          · exact Or.inr ⟨hx, hin⟩
          · exact Or.inl ⟨hx, by simp [hin]⟩

theorem waveIdx_lt_of_mem_flatten {ws : List (List String)} {x : String}
    (h : x ∈ ws.flatten) : waveIdx ws x < ws.length := by
  induction ws with
  | nil => simp at h
  | cons w ws ih =>
    rw [waveIdx_cons]
    by_cases hw : x ∈ w
    · simp [hw]
    · have : x ∈ ws.flatten := by
        rw [List.flatten_cons] at h
        rcases List.mem_append.mp h with h1 | h2
        · exact absurd h1 hw
        · exact h2
      simp [hw, Nat.succ_lt_succ (ih this)]

theorem hasIncoming_intro {edges : List (String × String)} {remaining : List String}
    {u v : String} (he : (u, v) ∈ edges) (hu : u ∈ remaining) :
    hasIncoming edges remaining v = true := by
  rw [hasIncoming, List.any_eq_true]
  exact ⟨(u, v), he, by simp [hu]⟩

theorem hasIncoming_elim {edges : List (String × String)} {remaining : List String}
    {v : String} (h : hasIncoming edges remaining v = true) :
    ∃ u ∈ remaining, (u, v) ∈ edges := by
  rw [hasIncoming, List.any_eq_true] at h
  obtain ⟨e, hmem, hp⟩ := h
  simp only [Bool.and_eq_true, decide_eq_true_eq] at hp
  exact ⟨e.1, hp.2, by rw [← hp.1]; exact hmem⟩

theorem kahnAux_wave_lt (edges : List (String × String)) :
    ∀ (fuel : Nat) (remaining : List String) (ws : List (List String)) (u v : String),
      kahnAux edges fuel remaining = some ws →
      (u, v) ∈ edges → u ∈ remaining → v ∈ remaining →
      waveIdx ws u < waveIdx ws v := by
  intro fuel
  induction fuel with
  | zero =>
    intro remaining ws u v h he hu hv
    rw [kahnAux] at h
    by_cases hemp : remaining.isEmpty
    · rw [List.isEmpty_iff] at hemp; subst hemp; cases hv
    · rw [if_neg hemp] at h; cases h
  | succ fuel ih =>
    intro remaining ws u v h he hu hv
    rw [kahnAux] at h
    by_cases hemp : remaining.isEmpty
    · rw [List.isEmpty_iff] at hemp; subst hemp; cases hv
    · rw [if_neg hemp] at h
      simp only at h
      by_cases hz : (remaining.filter (fun x => !hasIncoming edges remaining x)).isEmpty
      · rw [if_pos hz] at h; cases h
      · rw [if_neg hz, Option.map_eq_some'] at h
        obtain ⟨ws', hws', rfl⟩ := h
        have hvin : hasIncoming edges remaining v = true := hasIncoming_intro he hu
        have hvz : v ∉ remaining.filter (fun x => !hasIncoming edges remaining x) := by
          intro hmem
          have := (List.mem_filter.mp hmem).2
          simp [hvin] at this
        rw [waveIdx_cons, waveIdx_cons]
        by_cases huz : u ∈ remaining.filter (fun x => !hasIncoming edges remaining x)
        · simp [huz, hvz]
        · have huin : hasIncoming edges remaining u = true := by
            cases hui : hasIncoming edges remaining u with
            | false => exact absurd (List.mem_filter.mpr ⟨hu, by simp [hui]⟩) huz
            | true => rfl
          have hur : u ∈ remaining.filter (fun x => hasIncoming edges remaining x) :=
            List.mem_filter.mpr ⟨hu, huin⟩
          have hvr : v ∈ remaining.filter (fun x => hasIncoming edges remaining x) :=
            List.mem_filter.mpr ⟨hv, hvin⟩
          have := ih _ _ u v hws' he hur hvr
          simp [huz, hvz]
          omega

theorem kahnAux_flatten_lt (edges : List (String × String)) :
    ∀ (fuel : Nat) (remaining : List String) (ws : List (List String)) (u v : String),
      kahnAux edges fuel remaining = some ws →
      (u, v) ∈ edges → u ∈ remaining → v ∈ remaining →
      listPos ws.flatten u < listPos ws.flatten v := by
  intro fuel
  induction fuel with
  | zero =>
    intro remaining ws u v h he hu hv
    rw [kahnAux] at h
    by_cases hemp : remaining.isEmpty
    · rw [List.isEmpty_iff] at hemp; subst hemp; cases hv
    · rw [if_neg hemp] at h; cases h
  | succ fuel ih =>
    intro remaining ws u v h he hu hv
    rw [kahnAux] at h
    by_cases hemp : remaining.isEmpty
    · rw [List.isEmpty_iff] at hemp; subst hemp; cases hv
    · rw [if_neg hemp] at h
      simp only at h
      by_cases hz : (remaining.filter (fun x => !hasIncoming edges remaining x)).isEmpty
      · rw [if_pos hz] at h; cases h
      · rw [if_neg hz, Option.map_eq_some'] at h
        obtain ⟨ws', hws', rfl⟩ := h
        have hvin : hasIncoming edges remaining v = true := hasIncoming_intro he hu
        have hvz : v ∉ remaining.filter (fun x => !hasIncoming edges remaining x) := by
          intro hmem
          have := (List.mem_filter.mp hmem).2
          simp [hvin] at this
        have hvr : v ∈ remaining.filter (fun x => hasIncoming edges remaining x) :=
          List.mem_filter.mpr ⟨hv, hvin⟩
        have hvflat : v ∈ ws'.flatten :=
          (kahnAux_mem_flatten edges _ _ _ hws' v).mpr hvr
        rw [List.flatten_cons]
        rw [listPos_append_right hvz]
        by_cases huz : u ∈ remaining.filter (fun x => !hasIncoming edges remaining x)
        · rw [listPos_append_left _ huz]
          have := listPos_lt_length huz
          omega
        · have huin : hasIncoming edges remaining u = true := by
            cases hui : hasIncoming edges remaining u with
            | false => exact absurd (List.mem_filter.mpr ⟨hu, by simp [hui]⟩) huz
            | true => rfl
          have hur : u ∈ remaining.filter (fun x => hasIncoming edges remaining x) :=
            List.mem_filter.mpr ⟨hu, huin⟩
          have := ih _ _ u v hws' he hur hvr
          rw [listPos_append_right huz]
          omega

theorem kahnAux_none_stuck (edges : List (String × String)) :
    ∀ (fuel : Nat) (remaining : List String),
      remaining.length ≤ fuel →
      kahnAux edges fuel remaining = none →
      stuckSet edges fuel remaining ≠ [] ∧
        ∀ v ∈ stuckSet edges fuel remaining,
          ∃ u ∈ stuckSet edges fuel remaining, (u, v) ∈ edges := by
  intro fuel
  induction fuel with
  | zero =>
    intro remaining hlen h
    have : remaining = [] := List.length_eq_zero.mp (Nat.le_zero.mp hlen)
    subst this
    rw [kahnAux] at h
    simp at h
  | succ fuel ih =>
    intro remaining hlen h
    rw [kahnAux] at h
    by_cases hemp : remaining.isEmpty
    · rw [if_pos hemp] at h; cases h
    · rw [if_neg hemp] at h
      simp only at h
      rw [stuckSet, if_neg hemp]
      simp only
      by_cases hz : (remaining.filter (fun v => !hasIncoming edges remaining v)).isEmpty
      · rw [if_pos hz]
        rw [List.isEmpty_iff] at hz
        refine ⟨fun hh => hemp (List.isEmpty_iff.mpr hh), ?_⟩
        intro v hv
        have hnotz := List.filter_eq_nil_iff.mp hz v hv
        have hvin : hasIncoming edges remaining v = true := by
          cases hvi : hasIncoming edges remaining v with
          | false => exact absurd (by simp [hvi]) hnotz
          | true => rfl
        obtain ⟨u, hu, hue⟩ := hasIncoming_elim hvin
        exact ⟨u, hu, hue⟩
      · rw [if_neg hz] at h ⊢
        have hrec : kahnAux edges fuel (remaining.filter (fun v => hasIncoming edges remaining v)) = none := by
          cases hrk : kahnAux edges fuel (remaining.filter (fun v => hasIncoming edges remaining v)) with
          | none => rfl
          | some ws => rw [hrk] at h; cases h
        have hzlen : 0 < (remaining.filter (fun v => !hasIncoming edges remaining v)).length := by
          cases hzz : remaining.filter (fun v => !hasIncoming edges remaining v) with
          | nil => exact absurd (List.isEmpty_iff.mpr hzz) hz
          | cons a t => simp [hzz]
        have hpart := length_filter_add (fun v => hasIncoming edges remaining v) remaining
        exact ih _ (by omega) hrec

theorem edgeChain_of_append {edges : List (String × String)} :
    ∀ {l l' : List String}, edgeChain edges (l ++ l') → edgeChain edges l := by
  intro l
  induction l with
  | nil => intro l' _; trivial
  | cons a l ih =>
    intro l' h
    cases l with
    | nil => trivial
    | cons b rest =>
      rw [List.cons_append] at h
      obtain ⟨hab, h'⟩ := h
      exact ⟨hab, ih h'⟩

theorem takeWhile_split {l : List String} {v : String} (h : v ∈ l) :
    ∃ t, l = l.takeWhile (fun y => decide (y ≠ v)) ++ v :: t := by
  induction l with
  | nil => cases h
  | cons a l ih =>
    by_cases hav : a = v
    · subst hav
      refine ⟨l, ?_⟩
      simp [List.takeWhile_cons]
    · have hv : v ∈ l := by
        cases List.mem_cons.mp h with
        | inl h' => exact absurd h'.symm hav
        | inr h' => exact h'
      obtain ⟨t, ht⟩ := ih hv
      refine ⟨t, ?_⟩
      rw [List.takeWhile_cons, if_pos (by simp [hav] : decide (a ≠ v) = true)]
      rw [List.cons_append]
      exact congrArg (List.cons a) ht

theorem chase_spec (edges : List (String × String)) (S : List String) :
    ∀ (fuel : Nat) (v : String) (seen : List String),
      v ∈ S → (∀ x ∈ S, ∃ u ∈ S, (u, x) ∈ edges) →
      (∀ x ∈ seen, x ∈ S) → seen.Nodup →
      edgeChain edges (v :: seen) →
      S.length + 1 ≤ fuel + seen.length →
      ∃ c, chase edges S fuel v seen = some c ∧ isCycleOf edges c := by
  intro fuel
  induction fuel with
  | zero =>
    intro v seen hv hS hsub hnd hchain hfuel
    have hle := (List.subperm_of_subset hnd hsub).length_le
    omega
  | succ fuel ih =>
    intro v seen hv hS hsub hnd hchain hfuel
    rw [chase]
    by_cases hmem : v ∈ seen
    · rw [if_pos hmem]
      refine ⟨_, rfl, ?_, ?_, ?_⟩
      · simp
      · show _ = (v :: (List.takeWhile (fun y => decide (y ≠ v)) seen ++ [v])).getLast?
        have : v :: (List.takeWhile (fun y => decide (y ≠ v)) seen ++ [v]) =
            (v :: List.takeWhile (fun y => decide (y ≠ v)) seen) ++ [v] := by simp
        rw [this, List.getLast?_concat]
        rfl
      · obtain ⟨t, ht⟩ := takeWhile_split hmem
        have heq : v :: seen =
            ((v :: List.takeWhile (fun y => decide (y ≠ v)) seen) ++ [v]) ++ t := by
          conv_lhs => rw [ht]
          simp
        have hch := edgeChain_of_append (heq ▸ hchain)
        have : v :: (List.takeWhile (fun y => decide (y ≠ v)) seen ++ [v]) =
            (v :: List.takeWhile (fun y => decide (y ≠ v)) seen) ++ [v] := by simp
        rw [this]
        exact hch
    · rw [if_neg hmem]
      obtain ⟨u, huS, hue⟩ := hS v hv
      have hsome : (findPred edges S v).isSome := by
        rw [findPred, List.find?_isSome]
        exact ⟨u, huS, by simp [hue]⟩
      match hfp : findPred edges S v with
      | none => rw [hfp] at hsome; cases hsome
      | some w =>
        rw [findPred] at hfp
        have hw1 : w ∈ S := List.mem_of_find?_eq_some hfp
        have hw2 : (w, v) ∈ edges := by
          have h2 := List.find?_some hfp
          simpa using h2
        apply ih w (v :: seen) hw1 hS
        · intro x hx
          cases List.mem_cons.mp hx with
          | inl h' => exact h' ▸ hv
          | inr h' => exact hsub x h'
        · exact List.nodup_cons.mpr ⟨hmem, hnd⟩
        · exact ⟨hw2, hchain⟩
        · simp only [List.length_cons]
          omega

theorem findCycle_spec {edges : List (String × String)} {nodes : List String}
    (h : kahnAux edges nodes.length nodes = none) :
    ∃ c, findCycle edges nodes = some c ∧ isCycleOf edges c := by
  obtain ⟨hne, hinc⟩ := kahnAux_none_stuck edges nodes.length nodes le_rfl h
  rw [findCycle]
  match hS : stuckSet edges nodes.length nodes with
  | [] => exact absurd hS hne
  | v :: rest =>
    rw [hS] at hinc
    exact chase_spec edges (v :: rest) ((v :: rest).length + 1) v []
      (List.mem_cons_self v rest) hinc (by intro x hx; cases hx) List.nodup_nil
      trivial (by simp)

/-! ## Facts about the constructed digraph -/

theorem nxAddNode_of_mem {G : NxDiGraph} {v : String} (h : v ∈ G.nodeList) :
    nxAddNode G v = G := by
  simp [nxAddNode, h]

theorem nxAddNode_mem_mono {G : NxDiGraph} {v x : String} (h : x ∈ G.nodeList) :
    x ∈ (nxAddNode G v).nodeList := by
  by_cases hv : v ∈ G.nodeList <;> simp [nxAddNode, hv, h]

theorem nxAddNode_self_mem (G : NxDiGraph) (v : String) :
    v ∈ (nxAddNode G v).nodeList := by
  by_cases hv : v ∈ G.nodeList <;> simp [nxAddNode, hv]

theorem nxAddNode_edgeList (G : NxDiGraph) (v : String) :
    (nxAddNode G v).edgeList = G.edgeList := by
  by_cases hv : v ∈ G.nodeList <;> simp [nxAddNode, hv]

theorem nxAddNode_nodup {G : NxDiGraph} {v : String} (h : G.nodeList.Nodup) :
    (nxAddNode G v).nodeList.Nodup := by
  by_cases hv : v ∈ G.nodeList
  · simp [nxAddNode, hv, h]
  · rw [nxAddNode, if_neg hv]
    exact List.Nodup.append h (List.nodup_singleton v)
      (fun x hx hx2 => by
        rw [List.mem_singleton] at hx2
        exact hv (hx2 ▸ hx))

theorem nxAddEdge_nodeList (G : NxDiGraph) (u v : String) :
    (nxAddEdge G u v).nodeList = (nxAddNode (nxAddNode G u) v).nodeList := by
  by_cases h : (u, v) ∈ (nxAddNode (nxAddNode G u) v).edgeList <;> simp [nxAddEdge, h]

theorem nxAddEdge_node_mem_mono {G : NxDiGraph} {u v x : String}
    (h : x ∈ G.nodeList) : x ∈ (nxAddEdge G u v).nodeList := by
  rw [nxAddEdge_nodeList]
  exact nxAddNode_mem_mono (nxAddNode_mem_mono h)

theorem nxAddEdge_source_mem (G : NxDiGraph) (u v : String) :
    u ∈ (nxAddEdge G u v).nodeList := by
  rw [nxAddEdge_nodeList]
  exact nxAddNode_mem_mono (nxAddNode_self_mem G u)

theorem nxAddEdge_target_mem (G : NxDiGraph) (u v : String) :
    v ∈ (nxAddEdge G u v).nodeList := by
  rw [nxAddEdge_nodeList]
  exact nxAddNode_self_mem _ v

theorem nxAddEdge_edge_mem (G : NxDiGraph) (u v : String) :
    (u, v) ∈ (nxAddEdge G u v).edgeList := by
  by_cases h : (u, v) ∈ (nxAddNode (nxAddNode G u) v).edgeList <;> simp [nxAddEdge, h]

theorem nxAddEdge_edge_mono {G : NxDiGraph} {u v : String} {pr : String × String}
    (h : pr ∈ G.edgeList) : pr ∈ (nxAddEdge G u v).edgeList := by
  have h' : pr ∈ (nxAddNode (nxAddNode G u) v).edgeList := by
    rw [nxAddNode_edgeList, nxAddNode_edgeList]; exact h
  by_cases hm : (u, v) ∈ (nxAddNode (nxAddNode G u) v).edgeList <;>
    simp [nxAddEdge, hm, h']

theorem nxAddEdge_edge_sub {G : NxDiGraph} {u v : String} {pr : String × String}
    (h : pr ∈ (nxAddEdge G u v).edgeList) : pr ∈ G.edgeList ∨ pr = (u, v) := by
  have hE : (nxAddNode (nxAddNode G u) v).edgeList = G.edgeList := by
    rw [nxAddNode_edgeList, nxAddNode_edgeList]
  by_cases hm : (u, v) ∈ (nxAddNode (nxAddNode G u) v).edgeList
  · rw [nxAddEdge] at h
    simp only [hm, if_pos] at h
    rw [hE] at h
    exact Or.inl h
  · rw [nxAddEdge] at h
    simp only [hm, if_neg, not_false_iff] at h
    rw [hE] at h
    rcases List.mem_append.mp h with h1 | h2
    · exact Or.inl h1
    · exact Or.inr (List.mem_singleton.mp h2)

theorem nxAddEdge_nodup {G : NxDiGraph} {u v : String} (h : G.nodeList.Nodup) :
    (nxAddEdge G u v).nodeList.Nodup := by
  rw [nxAddEdge_nodeList]
  exact nxAddNode_nodup (nxAddNode_nodup h)

theorem foldNodes_mem_mono (l : List (String × DAGNode)) :
    ∀ (G : NxDiGraph) (x : String), x ∈ G.nodeList →
      x ∈ (l.foldl (fun G p => nxAddNode G p.1) G).nodeList := by
  induction l with
  | nil => intro G x h; exact h
  | cons a l ih =>
    intro G x h
    exact ih _ x (nxAddNode_mem_mono h)

theorem foldNodes_mem (l : List (String × DAGNode)) :
    ∀ (G : NxDiGraph) (p : String × DAGNode), p ∈ l →
      p.1 ∈ (l.foldl (fun G p => nxAddNode G p.1) G).nodeList := by
  induction l with
  | nil => intro G p h; cases h
  | cons a l ih =>
    intro G p h
    cases List.mem_cons.mp h with
    | inl h' =>
      subst h'
      exact foldNodes_mem_mono l _ p.1 (nxAddNode_self_mem G p.1)
    | inr h' => exact ih _ p h'

theorem foldNodes_nodup (l : List (String × DAGNode)) :
    ∀ (G : NxDiGraph), G.nodeList.Nodup →
      (l.foldl (fun G p => nxAddNode G p.1) G).nodeList.Nodup := by
  induction l with
  | nil => intro G h; exact h
  | cons a l ih => intro G h; exact ih _ (nxAddNode_nodup h)

theorem foldNodes_edgeList (l : List (String × DAGNode)) :
    ∀ (G : NxDiGraph), (l.foldl (fun G p => nxAddNode G p.1) G).edgeList = G.edgeList := by
  induction l with
  | nil => intro G; rfl
  | cons a l ih => intro G; rw [List.foldl_cons, ih, nxAddNode_edgeList]

theorem foldNodes_nodeList_new (l : List (String × DAGNode)) :
    ∀ (G : NxDiGraph), (∀ p ∈ l, p.1 ∉ G.nodeList) → (l.map Prod.fst).Nodup →
      (l.foldl (fun G p => nxAddNode G p.1) G).nodeList = G.nodeList ++ l.map Prod.fst := by
  induction l with
  | nil => intro G _ _; simp
  | cons a l ih =>
    intro G hnew hnd
    rw [List.foldl_cons]
    have ha : a.1 ∉ G.nodeList := hnew a (List.mem_cons_self a l)
    have hstep : (nxAddNode G a.1).nodeList = G.nodeList ++ [a.1] := by
      rw [nxAddNode, if_neg ha]
    rw [List.map_cons] at hnd
    have hnd' := List.nodup_cons.mp hnd
    rw [ih (nxAddNode G a.1) ?hn hnd'.2, hstep]
    · simp
    case hn =>
      intro p hp
      rw [hstep, List.mem_append, List.mem_singleton]
      rintro (h1 | h2)
      · exact hnew p (List.mem_cons_of_mem a hp) h1
      · exact hnd'.1 (h2 ▸ List.mem_map_of_mem Prod.fst hp)

theorem foldEdges_node_mono (es : List DAGEdge) :
    ∀ (G : NxDiGraph) (x : String), x ∈ G.nodeList →
      x ∈ (es.foldl (fun G e => nxAddEdge G e.source e.target) G).nodeList := by
  induction es with
  | nil => intro G x h; exact h
  | cons a es ih => intro G x h; exact ih _ x (nxAddEdge_node_mem_mono h)

theorem foldEdges_edge_mono (es : List DAGEdge) :
    ∀ (G : NxDiGraph) (pr : String × String), pr ∈ G.edgeList →
      pr ∈ (es.foldl (fun G e => nxAddEdge G e.source e.target) G).edgeList := by
  induction es with
  | nil => intro G pr h; exact h
  | cons a es ih => intro G pr h; exact ih _ pr (nxAddEdge_edge_mono h)

theorem foldEdges_facts (es : List DAGEdge) :
    ∀ (G : NxDiGraph) (e : DAGEdge), e ∈ es →
      (e.source, e.target) ∈ (es.foldl (fun G e => nxAddEdge G e.source e.target) G).edgeList ∧
      e.source ∈ (es.foldl (fun G e => nxAddEdge G e.source e.target) G).nodeList ∧
      e.target ∈ (es.foldl (fun G e => nxAddEdge G e.source e.target) G).nodeList := by
  induction es with
  | nil => intro G e h; cases h
  | cons a es ih =>
    intro G e h
    cases List.mem_cons.mp h with
    | inl h' =>
      subst h'
      refine ⟨foldEdges_edge_mono es _ _ (nxAddEdge_edge_mem G e.source e.target),
        foldEdges_node_mono es _ _ (nxAddEdge_source_mem G e.source e.target),
        foldEdges_node_mono es _ _ (nxAddEdge_target_mem G e.source e.target)⟩
    | inr h' => exact ih _ e h'

theorem foldEdges_edge_sub (es : List DAGEdge) :
    ∀ (G : NxDiGraph) (pr : String × String),
      pr ∈ (es.foldl (fun G e => nxAddEdge G e.source e.target) G).edgeList →
      pr ∈ G.edgeList ∨ ∃ e ∈ es, pr = (e.source, e.target) := by
  induction es with
  | nil => intro G pr h; exact Or.inl h
  | cons a es ih =>
    intro G pr h
    rcases ih _ pr h with h1 | h2
    · rcases nxAddEdge_edge_sub h1 with h3 | h4
      · exact Or.inl h3
      · exact Or.inr ⟨a, List.mem_cons_self a es, h4⟩
    · obtain ⟨e, he, hpr⟩ := h2
      exact Or.inr ⟨e, List.mem_cons_of_mem a he, hpr⟩

theorem foldEdges_nodup (es : List DAGEdge) :
    ∀ (G : NxDiGraph), G.nodeList.Nodup →
      (es.foldl (fun G e => nxAddEdge G e.source e.target) G).nodeList.Nodup := by
  induction es with
  | nil => intro G h; exact h
  | cons a es ih => intro G h; exact ih _ (nxAddEdge_nodup h)

theorem foldEdges_nodeList_id (es : List DAGEdge) :
    ∀ (G : NxDiGraph),
      (∀ e ∈ es, e.source ∈ G.nodeList ∧ e.target ∈ G.nodeList) →
      (es.foldl (fun G e => nxAddEdge G e.source e.target) G).nodeList = G.nodeList := by
  induction es with
  | nil => intro G _; rfl
  | cons a es ih =>
    intro G h
    have ha := h a (List.mem_cons_self a es)
    have h1 : nxAddNode G a.source = G := nxAddNode_of_mem ha.1
    have h2 : nxAddNode (nxAddNode G a.source) a.target = G := by
      rw [h1]; exact nxAddNode_of_mem ha.2
    have hstep : (nxAddEdge G a.source a.target).nodeList = G.nodeList := by
      rw [nxAddEdge_nodeList, h2]
    rw [List.foldl_cons, ih _ ?hh, hstep]
    case hh =>
      intro e he
      rw [hstep]
      exact h e (List.mem_cons_of_mem a he)

theorem to_networkx_nodup (dag : GenerationDAG) :
    (to_networkx dag).nodeList.Nodup := by
  rw [to_networkx]
  exact foldEdges_nodup _ _ (foldNodes_nodup _ _ List.nodup_nil)

theorem to_networkx_node_mem {dag : GenerationDAG} {p : String × DAGNode}
    (h : p ∈ dag.nodes) : p.1 ∈ (to_networkx dag).nodeList := by
  rw [to_networkx]
  exact foldEdges_node_mono _ _ _ (foldNodes_mem _ _ p h)

theorem to_networkx_edge_mem {dag : GenerationDAG} {e : DAGEdge}
    (h : e ∈ dag.edges) :
    (e.source, e.target) ∈ (to_networkx dag).edgeList ∧
    e.source ∈ (to_networkx dag).nodeList ∧
    e.target ∈ (to_networkx dag).nodeList := by
  rw [to_networkx]
  exact foldEdges_facts _ _ e h

theorem to_networkx_edge_sub {dag : GenerationDAG} {pr : String × String}
    (h : pr ∈ (to_networkx dag).edgeList) :
    ∃ e ∈ dag.edges, pr = (e.source, e.target) := by
  rw [to_networkx] at h
  rcases foldEdges_edge_sub _ _ _ h with h1 | h2
  · rw [foldNodes_edgeList] at h1
    cases h1
  · exact h2

theorem to_networkx_nodeList_eq {dag : GenerationDAG}
    (h1 : (dag.nodes.map Prod.fst).Nodup)
    (h2 : ∀ e ∈ dag.edges, e.source ∈ dag.nodes.map Prod.fst ∧
      e.target ∈ dag.nodes.map Prod.fst) :
    (to_networkx dag).nodeList = dag.nodes.map Prod.fst := by
  rw [to_networkx]
  have hbase : (dag.nodes.foldl (fun G p => nxAddNode G p.1) ⟨[], []⟩).nodeList =
      dag.nodes.map Prod.fst := by
    rw [foldNodes_nodeList_new dag.nodes ⟨[], []⟩ (fun p _ hc => by cases hc) h1]
    rfl
  rw [foldEdges_nodeList_id _ _ (fun e he => by rw [hbase]; exact h2 e he), hbase]

/-! ## Validation inversion -/

theorem validate_ok_inv {dag : GenerationDAG} {keys : List String}
    (h : validate_dag dag keys = .ok ()) :
    (∀ p ∈ dag.nodes, p.2.schema_id ∈ keys) ∧ nxIsDag (to_networkx dag) = true := by
  rw [validate_dag] at h
  cases hf : dag.nodes.find? (fun p => !(decide (p.2.schema_id ∈ keys))) with
  | some p => rw [hf] at h; cases h
  | none =>
    rw [hf] at h
    have h' : (if nxIsDag (to_networkx dag) = true then (Except.ok () : Except BuildError Unit)
        else .error (.cycleDetected
          ((findCycle (to_networkx dag).edgeList (to_networkx dag).nodeList).getD []))) =
        .ok () := h
    refine ⟨?_, ?_⟩
    · intro p hp
      have := List.find?_eq_none.mp hf p hp
      simpa using this
    · cases hd : nxIsDag (to_networkx dag) with
      | true => rfl
      | false => rw [hd] at h'; simp at h'

theorem validate_cycle_err {dag : GenerationDAG} {keys : List String}
    (hall : ∀ p ∈ dag.nodes, p.2.schema_id ∈ keys)
    (hcyc : nxIsDag (to_networkx dag) = false) :
    ∃ c, validate_dag dag keys = .error (.cycleDetected c) ∧
      isCycleOf (to_networkx dag).edgeList c := by
  have hf : dag.nodes.find? (fun p => !(decide (p.2.schema_id ∈ keys))) = none :=
    List.find?_eq_none.mpr (fun p hp => by simp [hall p hp])
  have hnone : kahnAux (to_networkx dag).edgeList (to_networkx dag).nodeList.length
      (to_networkx dag).nodeList = none := by
    rw [nxIsDag, kahnWaves] at hcyc
    cases hk : kahnAux (to_networkx dag).edgeList (to_networkx dag).nodeList.length
        (to_networkx dag).nodeList with
    | none => rfl
    | some ws => rw [hk] at hcyc; simp at hcyc
  obtain ⟨c, hc, hcy⟩ := findCycle_spec hnone
  refine ⟨c, ?_, hcy⟩
  rw [validate_dag, hf]
  show (if nxIsDag (to_networkx dag) = true then (Except.ok () : Except BuildError Unit)
      else .error (.cycleDetected
        ((findCycle (to_networkx dag).edgeList (to_networkx dag).nodeList).getD []))) = _
  rw [hcyc]
  simp only [Bool.false_eq_true, if_false]
  rw [hc]
  rfl

theorem validate_schema_err {dag : GenerationDAG} {keys : List String}
    {p : String × DAGNode}
    (hf : dag.nodes.find? (fun p => !(decide (p.2.schema_id ∈ keys))) = some p) :
    validate_dag dag keys = .error (.invalidSchema p.1 p.2.schema_id keys) := by
  rw [validate_dag, hf]

/-! ## Facts about `add_node`, `add_edge` and serialization -/

theorem lookupNode_cons (k : String) (n : DAGNode) (rest : List (String × DAGNode))
    (t : String) :
    lookupNode ((k, n) :: rest) t = if k = t then some n else lookupNode rest t := by
  by_cases h : k = t <;> simp [lookupNode, List.find?_cons, h]

theorem insertAssoc_append {l : List (String × DAGNode)} {m : DAGNode}
    (h : ∀ q ∈ l, q.1 ≠ m.id) : insertAssoc l m = l ++ [(m.id, m)] := by
  induction l with
  | nil => rfl
  | cons a l ih =>
    obtain ⟨k, n⟩ := a
    rw [insertAssoc, if_neg (h (k, n) (List.mem_cons_self _ _)),
      ih (fun q hq => h q (List.mem_cons_of_mem _ hq))]
    rfl

theorem backfill_noop {nodes : List (String × DAGNode)} {src tgt : String}
    (h : ∀ n, lookupNode nodes tgt = some n → src ∈ n.depends_on) :
    backfill nodes src tgt = nodes := by
  induction nodes with
  | nil => rfl
  | cons a rest ih =>
    obtain ⟨k, n⟩ := a
    by_cases hk : k = tgt
    · have hs := h n (by rw [lookupNode_cons, if_pos hk])
      rw [backfill, if_pos hk, if_pos hs]
    · rw [backfill, if_neg hk,
        ih (fun n' hl => h n' (by rw [lookupNode_cons, if_neg hk]; exact hl))]

theorem lookupNode_of_containsKey {nodes : List (String × DAGNode)} {k : String}
    (h : containsKeyN nodes k = true) : ∃ n, lookupNode nodes k = some n := by
  rw [containsKeyN, List.any_eq_true] at h
  obtain ⟨p, hp, he⟩ := h
  have hsome : (nodes.find? (fun p => decide (p.1 = k))).isSome :=
    List.find?_isSome.mpr ⟨p, hp, he⟩
  rw [lookupNode]
  cases hfind : nodes.find? (fun p => decide (p.1 = k)) with
  | none => rw [hfind] at hsome; cases hsome
  | some q => exact ⟨q.2, rfl⟩

theorem add_edge_edges (g : GenerationDAG) (e : DAGEdge) :
    (g.add_edge e).edges = g.edges ++ [e] := by
  rw [GenerationDAG.add_edge]
  by_cases h : containsKeyN g.nodes e.target <;> simp [h]

theorem add_edge_noop {g : GenerationDAG} {e : DAGEdge}
    (h : ∀ n, lookupNode g.nodes e.target = some n → e.source ∈ n.depends_on) :
    g.add_edge e = { g with edges := g.edges ++ [e] } := by
  rw [GenerationDAG.add_edge]
  by_cases hc : containsKeyN g.nodes e.target
  · simp only [hc, if_pos]
    rw [backfill_noop h]
  · simp [hc]

theorem add_edge_not_contains {g : GenerationDAG} {e : DAGEdge}
    (h : containsKeyN g.nodes e.target = false) :
    g.add_edge e = { g with edges := g.edges ++ [e] } := by
  rw [GenerationDAG.add_edge]
  simp [h]

theorem foldl_add_edge (es : List DAGEdge) :
    ∀ (g : GenerationDAG),
      (∀ e ∈ es, ∀ n, lookupNode g.nodes e.target = some n → e.source ∈ n.depends_on) →
      es.foldl (fun d e => d.add_edge e) g = { g with edges := g.edges ++ es } := by
  induction es with
  | nil => intro g _; simp
  | cons e es ih =>
    intro g h
    rw [List.foldl_cons]
    show es.foldl (fun d e => d.add_edge e) (g.add_edge e) = _
    rw [add_edge_noop (h e (List.mem_cons_self _ _))]
    have hrec := ih { g with edges := g.edges ++ [e] }
      (fun e' he' n hl => h e' (List.mem_cons_of_mem _ he') n hl)
    rw [hrec]
    simp

theorem foldl_add_node (l : List (String × DAGNode)) :
    ∀ (g : GenerationDAG),
      (∀ p ∈ l, p.1 = p.2.id) →
      (∀ p ∈ l, ∀ q ∈ g.nodes, q.1 ≠ p.1) →
      (l.map Prod.fst).Nodup →
      l.foldl (fun d p => d.add_node (stripNode p.2)) g =
        { g with nodes := g.nodes ++ l.map (fun p => (p.1, stripNode p.2)) } := by
  induction l with
  | nil => intro g _ _ _; simp
  | cons a l ih =>
    intro g hid hnew hnd
    have hida : (stripNode a.2).id = a.1 := (hid a (List.mem_cons_self _ _)).symm
    have hins : insertAssoc g.nodes (stripNode a.2) = g.nodes ++ [(a.1, stripNode a.2)] := by
      rw [insertAssoc_append (fun q hq => by
        rw [hida]; exact hnew a (List.mem_cons_self _ _) q hq), hida]
    rw [List.map_cons] at hnd
    have hnd' := List.nodup_cons.mp hnd
    rw [List.foldl_cons]
    show l.foldl (fun d p => d.add_node (stripNode p.2)) (g.add_node (stripNode a.2)) = _
    rw [GenerationDAG.add_node, hins]
    rw [ih _ (fun p hp => hid p (List.mem_cons_of_mem _ hp)) ?hn hnd'.2]
    · simp
    case hn =>
      intro p hp q hq
      rcases List.mem_append.mp hq with h1 | h2
      · exact hnew p (List.mem_cons_of_mem _ hp) q h1
      · rw [List.mem_singleton] at h2
        subst h2
        intro hc
        exact hnd'.1 (hc ▸ List.mem_map_of_mem Prod.fst hp)

theorem lookupNode_strip (nodes : List (String × DAGNode)) (k : String) :
    lookupNode (nodes.map (fun p => (p.1, stripNode p.2))) k =
      (lookupNode nodes k).map stripNode := by
  induction nodes with
  | nil => rfl
  | cons a rest ih =>
    obtain ⟨k', n⟩ := a
    rw [List.map_cons]
    show lookupNode ((k', stripNode n) :: _) k = _
    rw [lookupNode_cons, lookupNode_cons]
    by_cases h : k' = k
    · simp [h]
    · simp only [h, if_false]
      exact ih

theorem backfill_lookup {nodes : List (String × DAGNode)} {src tgt : String} {n : DAGNode}
    (h : lookupNode nodes tgt = some n) :
    lookupNode (backfill nodes src tgt) tgt =
      some (if src ∈ n.depends_on then n
        else { n with depends_on := n.depends_on ++ [src] }) := by
  induction nodes with
  | nil => cases h
  | cons a rest ih =>
    obtain ⟨k, m⟩ := a
    by_cases hk : k = tgt
    · rw [lookupNode_cons, if_pos hk] at h
      cases h
      rw [backfill, if_pos hk, lookupNode_cons, if_pos hk]
    · rw [lookupNode_cons, if_neg hk] at h
      rw [backfill, if_neg hk, lookupNode_cons, if_neg hk]
      exact ih h

theorem containsKey_of_lookup {nodes : List (String × DAGNode)} {k : String} {n : DAGNode}
    (h : lookupNode nodes k = some n) : containsKeyN nodes k = true := by
  rw [lookupNode] at h
  cases hf : nodes.find? (fun p => decide (p.1 = k)) with
  | none => rw [hf] at h; cases h
  | some q =>
    rw [containsKeyN, List.any_eq_true]
    refine ⟨q, List.mem_of_find?_eq_some hf, ?_⟩
    have := List.find?_some hf
    simpa using this

theorem add_edge_nodes_contains {g : GenerationDAG} {e : DAGEdge}
    (h : containsKeyN g.nodes e.target = true) :
    (g.add_edge e).nodes = backfill g.nodes e.source e.target := by
  rw [GenerationDAG.add_edge]
  simp [h]

/-! ## Scenario-planner warning facts -/

theorem scanSceneNode_obj (valid : List String) (scene_name : String)
    (fs : List (String × Json)) :
    scanSceneNode valid scene_name (Json.obj fs) =
      some (if sceneNodeSchemaId fs ∈ valid then []
        else [{ scene_name := scene_name, node_id := sceneNodeIdTag fs,
                schema_id := sceneNodeSchemaId fs }]) := by
  by_cases h : sceneNodeSchemaId fs ∈ valid <;> simp [scanSceneNode, h]

theorem scanNodes_obj (valid : List String) (scene_name : String) :
    ∀ (nodes : List Json), (∀ nj ∈ nodes, ∃ fs, nj = Json.obj fs) →
      ∃ ws, scanNodes valid scene_name nodes = some ws ∧
        ∀ fs, Json.obj fs ∈ nodes → sceneNodeSchemaId fs ∉ valid →
          ({ scene_name := scene_name, node_id := sceneNodeIdTag fs,
             schema_id := sceneNodeSchemaId fs } : SchemaWarning) ∈ ws := by
  intro nodes
  induction nodes with
  | nil =>
    intro _
    exact ⟨[], rfl, fun fs hmem _ => by cases hmem⟩
  | cons j rest ih =>
    intro hobj
    obtain ⟨fs0, hj⟩ := hobj j (List.mem_cons_self _ _)
    obtain ⟨ws, hws, hmem⟩ := ih (fun nj hnj => hobj nj (List.mem_cons_of_mem _ hnj))
    subst hj
    refine ⟨(if sceneNodeSchemaId fs0 ∈ valid then []
      else [{ scene_name := scene_name, node_id := sceneNodeIdTag fs0,
              schema_id := sceneNodeSchemaId fs0 }]) ++ ws, ?_, ?_⟩
    · rw [scanNodes, scanSceneNode_obj]
      rw [hws]
      rfl
    · intro fs hfsmem hninv
      rcases List.mem_cons.mp hfsmem with h1 | h2
      · have hfs : fs = fs0 := by
          injection h1
        subst hfs
        rw [if_neg hninv]
        exact List.mem_append.mpr (Or.inl (List.mem_singleton.mpr rfl))
      · exact List.mem_append.mpr (Or.inr (hmem fs h2 hninv))

theorem collectWarnings_obj (valid : List String) :
    ∀ (scenes : List Scene),
      (∀ scene ∈ scenes, ∀ nj ∈ scene.nodes, ∃ fs, nj = Json.obj fs) →
      ∃ ws, collectWarnings valid scenes = some ws ∧
        ∀ scene ∈ scenes, ∀ fs, Json.obj fs ∈ scene.nodes →
          sceneNodeSchemaId fs ∉ valid →
          ({ scene_name := scene.name, node_id := sceneNodeIdTag fs,
             schema_id := sceneNodeSchemaId fs } : SchemaWarning) ∈ ws := by
  intro scenes
  induction scenes with
  | nil =>
    intro _
    exact ⟨[], rfl, fun scene hmem => by cases hmem⟩
  | cons scene rest ih =>
    intro hobj
    obtain ⟨ws1, hws1, hmem1⟩ := scanNodes_obj valid scene.name scene.nodes
      (hobj scene (List.mem_cons_self _ _))
    obtain ⟨ws2, hws2, hmem2⟩ := ih (fun sc hsc => hobj sc (List.mem_cons_of_mem _ hsc))
    refine ⟨ws1 ++ ws2, ?_, ?_⟩
    · rw [collectWarnings, hws1, hws2]
      rfl
    · intro sc hsc fs hfs hninv
      rcases List.mem_cons.mp hsc with h1 | h2
      · subst h1
        exact List.mem_append.mpr (Or.inl (hmem1 fs hfs hninv))
      · exact List.mem_append.mpr (Or.inr (hmem2 sc h2 fs hfs hninv))

/-! ## Prompt truncation facts -/

theorem dagExistingText_take (l : List ExistingRecord) :
    dagExistingText l = dagExistingText (l.take 10) := by
  cases l with
  | nil => rfl
  | cons a t =>
    rw [dagExistingText, dagExistingText]
    simp [List.take_take]

theorem scenarioExistingText_take (l : List ExistingRecord) :
    scenarioExistingText l = scenarioExistingText (l.take 10) := by
  cases l with
  | nil => rfl
  | cons a t =>
    rw [scenarioExistingText, scenarioExistingText]
    simp [List.take_take]

/-! ## Claim theorems -/

/-- Claim C9: both the DAG Builder prompt and the Scenario Planner prompt
include at most the first 10 records of the supplied existing-data list —
each prompt built from the full list equals the prompt built from just its
first 10 records, so records beyond that are never included, regardless of
the length of the list. -/
theorem C9_prompt_truncation (task : String) (tasks : List String)
    (schemas : List SchemaRef) (existing_world : Option String)
    (existing_data : List ExistingRecord) :
    build_dag_prompt task schemas existing_data =
      build_dag_prompt task schemas (existing_data.take 10) ∧
    build_scenario_prompt tasks schemas existing_world existing_data =
      build_scenario_prompt tasks schemas existing_world (existing_data.take 10) := by
  constructor
  · rw [build_dag_prompt, build_dag_prompt, ← dagExistingText_take]
  · rw [build_scenario_prompt, build_scenario_prompt, ← scenarioExistingText_take]

/-- Claim C10: a model response parsing to a JSON object with neither a
`"nodes"` nor an `"edges"` key (such as `{}`) does not make the DAG Builder
raise: parsing yields the empty graph, the whole builder call returns it,
and it passes validation (schema containment and acyclicity) against any
schema set.  A node entry carrying only `"id"` and `"schema_id"` is accepted
with every optional field filled by its default rather than rejected. -/
theorem C10_empty_response (task : String) (schemas : List SchemaRef)
    (keys : List String) (x y : String) :
    parse_response task (Json.obj []) schemas =
      some { task := task, nodes := [], edges := [] } ∧
    (build_dag_from_task task schemas [] (Json.obj [])).2 =
      .ok { task := task, nodes := [], edges := [] } ∧
    validate_dag { task := task, nodes := [], edges := [] } keys = .ok () ∧
    parse_response task
        (Json.obj [("nodes", Json.arr [Json.obj [("id", Json.str x),
          ("schema_id", Json.str y)]])]) [] =
      some { task := task,
             nodes := [(x, DAGNode.mk x y "" [] [] [] [] none)],
             edges := [] } :=
  ⟨rfl, rfl, rfl, rfl⟩

/-- Claim C7: an `output_dag` pipeline call whose schema fetch came back
empty fails with the "No schemas available" error before the model call is
reached (the `modelCalled` constructor marks that an outbound request was
issued; the result is an `errorResult` instead), and two such calls both
fail that way — the guard depends only on the schema list. -/
theorem C7_no_schemas (environment_id task1 task2 : String)
    (existing : List ExistingRecord) (resp1 resp2 : Json)
    (connectors : List Json) (hconn : connectors ≠ []) :
    output_dag environment_id (some (Json.obj [("connectors", Json.arr connectors)]))
      [] existing task1 resp1 = .errorResult "No schemas available" ∧
    output_dag environment_id (some (Json.obj [("connectors", Json.arr connectors)]))
      [] existing task2 resp2 = .errorResult "No schemas available" ∧
    ∀ prompt outcome,
      output_dag environment_id (some (Json.obj [("connectors", Json.arr connectors)]))
        [] existing task1 resp1 ≠ .modelCalled prompt outcome := by
  have key : ∀ (task : String) (resp : Json),
      output_dag environment_id (some (Json.obj [("connectors", Json.arr connectors)]))
        [] existing task resp = .errorResult "No schemas available" := by
    intro task resp
    rw [output_dag]
    have hApps : (match (jget (Json.obj [("connectors", Json.arr connectors)])
        "connectors").getD (Json.arr []) with
      | Json.arr xs => xs
      | _ => ([] : List Json)) = connectors := rfl
    rw [hApps]
    rw [if_neg (by simpa [List.isEmpty_iff] using hconn)]
    rfl
  refine ⟨key task1 resp1, key task2 resp2, ?_⟩
  intro prompt outcome hcontra
  rw [key task1 resp1] at hcontra
  cases hcontra

/-- Witness for C7: two concrete pipeline calls with an empty schema list
both produce the "No schemas available" error. -/
theorem C7_no_schemas_witness :
    output_dag "env1" (some gmailEnvRow) [] [] "task one" Json.null =
      .errorResult "No schemas available" ∧
    output_dag "env1" (some gmailEnvRow) [] [] "task two" Json.null =
      .errorResult "No schemas available" :=
  ⟨(C7_no_schemas "env1" "task one" "task two" [] Json.null Json.null
      [Json.str "gmail"] (List.cons_ne_nil _ _)).1,
    (C7_no_schemas "env1" "task one" "task two" [] Json.null Json.null
      [Json.str "gmail"] (List.cons_ne_nil _ _)).2.1⟩

/-- Claim C2 as stated is false on the code: ordering is computed from the
edge list alone, so a pair that is present only in `depends_on` (here
`("a", "b")` in `impliedDependencyGraph`, which the builder validates) need
not come out source-before-target — `linear_order` is `["b", "a"]`, so `"a"`
is not strictly earlier than `"b"`. -/
theorem C2_counterexample :
    validate_dag impliedDependencyGraph ["s"] = .ok () ∧
    ("a", "b") ∈ dependsOnRel impliedDependencyGraph ∧
    get_linear_order impliedDependencyGraph = some ["b", "a"] ∧
    ¬ listPos ["b", "a"] "a" < listPos ["b", "a"] "b" :=
  ⟨rfl, by decide, rfl, by decide⟩

/-- Claim C2, amended: the ordering guarantee holds for the pairs recorded in
the edge list (every edge implies a `depends_on` entry, but ordering ignores
`depends_on` entries that have no edge).  For every validated graph and every
recorded edge, the wave index of the source is at most (in fact strictly
below) that of the target in `get_generation_order`, and the source appears strictly
earlier than the target in `get_linear_order`. -/
theorem C2_topological_amended (dag : GenerationDAG) (keys : List String)
    (hval : validate_dag dag keys = .ok ())
    (e : DAGEdge) (he : e ∈ dag.edges) :
    ∃ gens lin, get_generation_order dag = some gens ∧
      get_linear_order dag = some lin ∧
      waveIdx gens e.source ≤ waveIdx gens e.target ∧
      waveIdx gens e.target < gens.length ∧
      listPos lin e.source < listPos lin e.target ∧
      listPos lin e.target < lin.length := by
  have hdag := (validate_ok_inv hval).2
  rw [nxIsDag] at hdag
  cases hk : kahnWaves (to_networkx dag) with
  | none => rw [hk] at hdag; cases hdag
  | some gens =>
    have hk' : kahnAux (to_networkx dag).edgeList (to_networkx dag).nodeList.length
        (to_networkx dag).nodeList = some gens := hk
    obtain ⟨hedge, hsrc, htgt⟩ := to_networkx_edge_mem he
    have hwave := kahnAux_wave_lt _ _ _ _ e.source e.target hk' hedge hsrc htgt
    have hlin := kahnAux_flatten_lt _ _ _ _ e.source e.target hk' hedge hsrc htgt
    have htgt_flat : e.target ∈ gens.flatten :=
      (kahnAux_mem_flatten _ _ _ _ hk' e.target).mpr htgt
    refine ⟨gens, gens.flatten, ?_, ?_, Nat.le_of_lt hwave,
      waveIdx_lt_of_mem_flatten htgt_flat, hlin, listPos_lt_length htgt_flat⟩
    · rw [get_generation_order, hk]
    · rw [get_linear_order, get_generation_order, hk]
      rfl

/-- Witness for the amended C2 at the concrete validated graph `a → b`. -/
theorem C2_topological_witness :
    ∃ gens lin, get_generation_order simpleChainGraph = some gens ∧
      get_linear_order simpleChainGraph = some lin ∧
      waveIdx gens "a" ≤ waveIdx gens "b" ∧
      waveIdx gens "b" < gens.length ∧
      listPos lin "a" < listPos lin "b" ∧
      listPos lin "b" < lin.length :=
  C2_topological_amended simpleChainGraph ["s"] rfl
    { source := "a", target := "b" } (List.mem_singleton.mpr rfl)

/-- Claim C3 as stated is false on the code: the acyclicity check runs on the
edge list, not on the `depends_on` relation.  `dependsOnCycleGraph` has the
`depends_on` cycle `a ↔ b` (Kahn elimination on that relation over the node
ids fails), yet validation accepts the graph because its edge list is empty. -/
theorem C3_counterexample :
    kahnAux (dependsOnRel dependsOnCycleGraph)
      (dependsOnCycleGraph.nodes.map Prod.fst).length
      (dependsOnCycleGraph.nodes.map Prod.fst) = none ∧
    validate_dag dependsOnCycleGraph ["s"] = .ok () :=
  ⟨rfl, rfl⟩

/-- Claim C3, amended: validation enforces acyclicity of the graph induced by
the recorded edge list (not of the `depends_on` relation): a graph passes
only if Kahn elimination of that digraph succeeds, and when it fails on a
graph whose schema references are all valid, validation rejects it with a
"cycle detected" error carrying one concrete offending cycle — a closed walk
along edges of the digraph, all of which come from the edge list of the
graph. -/
theorem C3_cycle_amended (dag : GenerationDAG) (keys : List String) :
    (validate_dag dag keys = .ok () → nxIsDag (to_networkx dag) = true) ∧
    ((∀ p ∈ dag.nodes, p.2.schema_id ∈ keys) →
      nxIsDag (to_networkx dag) = false →
      ∃ c, validate_dag dag keys = .error (.cycleDetected c) ∧
        isCycleOf (to_networkx dag).edgeList c) ∧
    (∀ pr ∈ (to_networkx dag).edgeList, ∃ e ∈ dag.edges, pr = (e.source, e.target)) :=
  ⟨fun h => (validate_ok_inv h).2,
    fun hall hcyc => validate_cycle_err hall hcyc,
    fun _ hpr => to_networkx_edge_sub hpr⟩

/-- Witness for the amended C3 at the concrete cyclic graph `a → b → a`:
validation rejects it with a concrete cycle. -/
theorem C3_cycle_witness :
    ∃ c, validate_dag edgeCycleGraph ["s"] = .error (.cycleDetected c) ∧
      isCycleOf (to_networkx edgeCycleGraph).edgeList c :=
  (C3_cycle_amended edgeCycleGraph ["s"]).2.1 (by decide) rfl

/-- Claim C4 as stated is false on the code: `to_networkx` silently inserts
edge endpoints that are not nodes of the graph, so for the validated
`phantomEdgeGraph` (one node, one edge from the phantom id `a`)
`linear_order` exists but has length 2 while the graph has 1 node. -/
theorem C4_counterexample :
    validate_dag phantomEdgeGraph ["s"] = .ok () ∧
    get_linear_order phantomEdgeGraph = some ["a", "b"] ∧
    (get_linear_order phantomEdgeGraph).map List.length ≠
      some phantomEdgeGraph.nodes.length :=
  ⟨rfl, rfl, by decide⟩

/-- Claim C4, amended: for any graph accepted by validation, `linear_order`
exists and its length is the number of distinct ids occurring as graph nodes
or edge endpoints; when the node keys are distinct and every edge endpoint is
a node id — in particular for every graph whose edges reference only real
nodes — that number is exactly the node count. -/
theorem C4_linear_amended (dag : GenerationDAG) (keys : List String)
    (hval : validate_dag dag keys = .ok ()) :
    ∃ lin, get_linear_order dag = some lin ∧
      lin.length = (to_networkx dag).nodeList.length ∧
      ((dag.nodes.map Prod.fst).Nodup →
        (∀ e ∈ dag.edges, e.source ∈ dag.nodes.map Prod.fst ∧
          e.target ∈ dag.nodes.map Prod.fst) →
        lin.length = dag.nodes.length) := by
  have hdag := (validate_ok_inv hval).2
  rw [nxIsDag] at hdag
  cases hk : kahnWaves (to_networkx dag) with
  | none => rw [hk] at hdag; cases hdag
  | some gens =>
    have hk' : kahnAux (to_networkx dag).edgeList (to_networkx dag).nodeList.length
        (to_networkx dag).nodeList = some gens := hk
    have hlen := kahnAux_flatten_length _ _ _ _ hk'
    refine ⟨gens.flatten, ?_, hlen, ?_⟩
    · rw [get_linear_order, get_generation_order, hk]
      rfl
    · intro hnd hend
      rw [hlen, to_networkx_nodeList_eq hnd hend, List.length_map]

/-- Witness for the amended C4 at the concrete validated graph `a → b`. -/
theorem C4_linear_witness :
    ∃ lin, get_linear_order simpleChainGraph = some lin ∧
      lin.length = (to_networkx simpleChainGraph).nodeList.length ∧
      ((simpleChainGraph.nodes.map Prod.fst).Nodup →
        (∀ e ∈ simpleChainGraph.edges, e.source ∈ simpleChainGraph.nodes.map Prod.fst ∧
          e.target ∈ simpleChainGraph.nodes.map Prod.fst) →
        lin.length = simpleChainGraph.nodes.length) :=
  C4_linear_amended simpleChainGraph ["s"] rfl

/-- Claim C5: schema containment.  Every graph the builder returns satisfies
`schema_id ∈ validSchemaKeys schemas` for all of its nodes; and whenever the
parsed response contains a node with an unknown schema id, the builder
returns the "invalid schema" error for the first such node in insertion
order — carrying the offending node id, its schema id and the full valid key
list — and returns no graph at all (the pipeline computes generation orders
only from a returned graph, so none is computed). -/
theorem C5_schema_containment (task : String) (schemas : List SchemaRef)
    (existing_data : List ExistingRecord) (response : Json) :
    (∀ dag, (build_dag_from_task task schemas existing_data response).2 = .ok dag →
      ∀ p ∈ dag.nodes, p.2.schema_id ∈ validSchemaKeys schemas) ∧
    (∀ dag p, parse_response task response schemas = some dag →
      dag.nodes.find? (fun q => !(decide (q.2.schema_id ∈ validSchemaKeys schemas))) =
        some p →
      (build_dag_from_task task schemas existing_data response).2 =
        .error (.invalidSchema p.1 p.2.schema_id (validSchemaKeys schemas)) ∧
      ∀ dag', (build_dag_from_task task schemas existing_data response).2 ≠ .ok dag') := by
  constructor
  · intro dag hok
    rw [build_dag_from_task] at hok
    cases hp : parse_response task response schemas with
    | none =>
      rw [hp] at hok
      have h' : (Except.error .malformedResponse : Except BuildError GenerationDAG) =
        .ok dag := hok
      cases h'
    | some dag0 =>
      rw [hp] at hok
      have hok' : (match validate_dag dag0 (validSchemaKeys schemas) with
          | Except.ok _ => (build_dag_prompt task schemas existing_data, Except.ok dag0)
          | Except.error e =>
            (build_dag_prompt task schemas existing_data, Except.error e)).2 =
          Except.ok dag := hok
      cases hv : validate_dag dag0 (validSchemaKeys schemas) with
      | error e =>
        rw [hv] at hok'
        have h' : (Except.error e : Except BuildError GenerationDAG) = .ok dag := hok'
        cases h'
      | ok u =>
        cases u
        rw [hv] at hok'
        have h' : (Except.ok dag0 : Except BuildError GenerationDAG) = .ok dag := hok'
        have heq : dag0 = dag := by injection h'
        subst heq
        exact fun p hp' => (validate_ok_inv hv).1 p hp'
  · intro dag p hp hf
    have hv := validate_schema_err hf
    have hkey : (build_dag_from_task task schemas existing_data response).2 =
        .error (.invalidSchema p.1 p.2.schema_id (validSchemaKeys schemas)) := by
      rw [build_dag_from_task, hp]
      show (match validate_dag dag (validSchemaKeys schemas) with
        | Except.ok _ => (build_dag_prompt task schemas existing_data, Except.ok dag)
        | Except.error e =>
          (build_dag_prompt task schemas existing_data, Except.error e)).2 = _
      rw [hv]
    refine ⟨hkey, ?_⟩
    intro dag' hcon
    rw [hkey] at hcon
    cases hcon

/-- Witness for C5: a concrete response declaring node `n1` with the unknown
schema `bad/x` against the one-schema catalog makes the builder return the
"invalid schema" error naming `n1` and the full valid set, and no graph. -/
theorem C5_schema_witness :
    (build_dag_from_task "t" [schemaRefGmail] [] badSchemaResponse).2 =
      .error (.invalidSchema "n1" "bad/x" ["gmail/thread"]) ∧
    ∀ dag', (build_dag_from_task "t" [schemaRefGmail] [] badSchemaResponse).2 ≠
      .ok dag' :=
  (C5_schema_containment "t" [schemaRefGmail] [] badSchemaResponse).2 _ _ rfl rfl

/-- Claim C6 as stated is false on one point: "exactly once" fails when the
`depends_on` of the target already lists the source more than once — a state
reachable because `from_dict` and `_parse_response` copy `depends_on`
verbatim from their input.  In `dupDependsGraph` both `a` and `b` exist as
nodes and `b.depends_on = ["a", "a"]`; adding the edge `a → b` leaves the
count at 2, not 1. -/
theorem C6_counterexample :
    containsKeyN dupDependsGraph.nodes "a" = true ∧
    containsKeyN dupDependsGraph.nodes "b" = true ∧
    (lookupNode (dupDependsGraph.add_edge { source := "a", target := "b" }).nodes "b").map
      (fun n => n.depends_on.count "a") = some 2 :=
  ⟨rfl, rfl, rfl⟩

/-- Claim C6, amended: the edge is always appended to the edge list; when the
target exists and its `depends_on` does not already list the source more than
once, after adding the edge — once or twice — the `depends_on` of the target
contains the source exactly once; and when the target does not exist, the
edge is still appended but the nodes of the graph are untouched. -/
theorem C6_backfill_amended (g : GenerationDAG) (e : DAGEdge) :
    (g.add_edge e).edges = g.edges ++ [e] ∧
    (∀ n, lookupNode g.nodes e.target = some n →
      n.depends_on.count e.source ≤ 1 →
      ∃ n₁ n₂, lookupNode (g.add_edge e).nodes e.target = some n₁ ∧
        n₁.depends_on.count e.source = 1 ∧
        lookupNode ((g.add_edge e).add_edge e).nodes e.target = some n₂ ∧
        n₂.depends_on.count e.source = 1) ∧
    (containsKeyN g.nodes e.target = false →
      g.add_edge e = { g with edges := g.edges ++ [e] }) := by
  refine ⟨add_edge_edges g e, ?_, fun h => add_edge_not_contains h⟩
  intro n hl hcnt
  have hck := containsKey_of_lookup hl
  have h1 : lookupNode (g.add_edge e).nodes e.target =
      some (if e.source ∈ n.depends_on then n
        else { n with depends_on := n.depends_on ++ [e.source] }) := by
    rw [add_edge_nodes_contains hck]
    exact backfill_lookup hl
  by_cases hm : e.source ∈ n.depends_on
  · rw [if_pos hm] at h1
    have hpos : 0 < n.depends_on.count e.source := List.count_pos_iff.mpr hm
    have hcount1 : n.depends_on.count e.source = 1 := by omega
    have h2 : lookupNode ((g.add_edge e).add_edge e).nodes e.target = some n := by
      rw [add_edge_nodes_contains (containsKey_of_lookup h1), backfill_lookup h1,
        if_pos hm]
    exact ⟨n, n, h1, hcount1, h2, hcount1⟩
  · rw [if_neg hm] at h1
    have hzero : n.depends_on.count e.source = 0 := List.count_eq_zero_of_not_mem hm
    have hcount1 : ({ n with depends_on := n.depends_on ++ [e.source] } :
        DAGNode).depends_on.count e.source = 1 := by
      show (n.depends_on ++ [e.source]).count e.source = 1
      rw [List.count_append, hzero]
      simp
    have hmem1 : e.source ∈ ({ n with depends_on := n.depends_on ++ [e.source] } :
        DAGNode).depends_on := by
      show e.source ∈ n.depends_on ++ [e.source]
      simp
    have h2 : lookupNode ((g.add_edge e).add_edge e).nodes e.target =
        some { n with depends_on := n.depends_on ++ [e.source] } := by
      rw [add_edge_nodes_contains (containsKey_of_lookup h1), backfill_lookup h1,
        if_pos hmem1]
    exact ⟨_, _, h1, hcount1, h2, hcount1⟩

/-- Witness for the amended C6 at the concrete graph `a → b` (where
`b.depends_on` already lists `a` once): after adding the edge once and
twice, the count stays exactly 1. -/
theorem C6_backfill_witness :
    ∃ n₁ n₂,
      lookupNode (simpleChainGraph.add_edge { source := "a", target := "b" }).nodes "b" =
        some n₁ ∧
      n₁.depends_on.count "a" = 1 ∧
      lookupNode ((simpleChainGraph.add_edge { source := "a", target := "b" }).add_edge
        { source := "a", target := "b" }).nodes "b" = some n₂ ∧
      n₂.depends_on.count "a" = 1 :=
  (C6_backfill_amended simpleChainGraph { source := "a", target := "b" }).2.1 _ rfl
    (by decide)

/-- Claim C8: the scene-node validation of the Scenario Planner is non-fatal.  For
any response that parses into a plan (with dict-shaped scene nodes, the only
case in which the Python validation loop itself does not crash), the planner
returns the parsed plan unchanged together with a warning list, and every
scene node whose schema id is outside the valid set contributes a warning
recording the scene name, the id of the node and the offending schema id — no
invalid schema reference ever makes `plan_environment` fail, in contrast to
the hard error of the DAG Builder. -/
theorem C8_soft_validation (tasks : List String) (schemas : List SchemaRef)
    (existing_world : Option String) (existing_data : List ExistingRecord)
    (response : Json) (plan : EnvironmentPlan)
    (hparse : parseScenarioResponse response = some plan)
    (hobj : ∀ scene ∈ plan.scenes, ∀ nj ∈ scene.nodes, ∃ fs, nj = Json.obj fs) :
    ∃ ws, plan_environment tasks schemas existing_world existing_data response =
        (build_scenario_prompt tasks schemas existing_world existing_data,
          some (plan, ws)) ∧
      ∀ scene ∈ plan.scenes, ∀ fs, Json.obj fs ∈ scene.nodes →
        sceneNodeSchemaId fs ∉ validSchemaKeys schemas →
        ({ scene_name := scene.name, node_id := sceneNodeIdTag fs,
           schema_id := sceneNodeSchemaId fs } : SchemaWarning) ∈ ws := by
  obtain ⟨ws, hws, hmem⟩ := collectWarnings_obj (validSchemaKeys schemas) plan.scenes hobj
  refine ⟨ws, ?_, hmem⟩
  rw [plan_environment, hparse]
  show (match collectWarnings (validSchemaKeys schemas) plan.scenes with
    | none => (build_scenario_prompt tasks schemas existing_world existing_data, none)
    | some ws =>
      (build_scenario_prompt tasks schemas existing_world existing_data,
        some (plan, ws))) = _
  rw [hws]

/-- Witness for C8: a concrete scenario response whose only scene node uses
the unknown schema `bad/x`; the plan is returned as parsed and the warning
list contains the corresponding record. -/
theorem C8_soft_validation_witness :
    ∃ ws, plan_environment ["do it"] [schemaRefGmail] none [] invalidSceneResponse =
        (build_scenario_prompt ["do it"] [schemaRefGmail] none [],
          some (invalidScenePlan, ws)) ∧
      ({ scene_name := "scene one", node_id := some "n1",
         schema_id := "bad/x" } : SchemaWarning) ∈ ws := by
  have hobj : ∀ scene ∈ invalidScenePlan.scenes, ∀ nj ∈ scene.nodes,
      ∃ fs, nj = Json.obj fs := by
    intro scene hs nj hnj
    have hs' : scene ∈ [Scene.mk "scene one" "" [] [Json.obj invalidSceneNodeFields]] := hs
    rw [List.mem_singleton] at hs'
    subst hs'
    have hnj' : nj ∈ [Json.obj invalidSceneNodeFields] := hnj
    rw [List.mem_singleton] at hnj'
    exact ⟨_, hnj'⟩
  obtain ⟨ws, heq, hmem⟩ := C8_soft_validation ["do it"] [schemaRefGmail] none []
    invalidSceneResponse invalidScenePlan rfl hobj
  refine ⟨ws, heq, ?_⟩
  exact hmem (Scene.mk "scene one" "" [] [Json.obj invalidSceneNodeFields])
    (List.mem_singleton.mpr rfl) invalidSceneNodeFields
    (List.mem_singleton.mpr rfl) (by decide)

/-- Claim C1 as stated is false on the code: `from_dict (to_dict g)` need not
reproduce `g`.  Two node fields change on `roundTripCounterexample`: the
`depends_on` list gains `"a"` (because `from_dict` replays the recorded edge
`a → b` through `add_edge`, whose back-fill had not been applied in the
original graph), and the runtime-attached `schema` structure is lost
(`to_dict` does not serialize it and `from_dict` resets it to `{}`). -/
theorem C1_roundtrip_counterexample :
    GenerationDAG.from_dict roundTripCounterexample.to_dict ≠ roundTripCounterexample ∧
    (lookupNode (GenerationDAG.from_dict roundTripCounterexample.to_dict).nodes "b").map
      DAGNode.depends_on = some ["a"] ∧
    (lookupNode roundTripCounterexample.nodes "b").map DAGNode.depends_on = some [] ∧
    (lookupNode (GenerationDAG.from_dict roundTripCounterexample.to_dict).nodes "b").map
      DAGNode.schema = some [] ∧
    (lookupNode roundTripCounterexample.nodes "b").map DAGNode.schema =
      some [("type", Json.str "object")] := by
  refine ⟨?_, rfl, rfl, rfl, rfl⟩
  intro h
  have h2 := congrArg (fun g => (lookupNode g.nodes "b").map DAGNode.depends_on) h
  have h3 : (some ["a"] : Option (List String)) = some [] := h2
  cases h3

/-- Claim C1, amended: for every graph whose node-map keys are distinct and
equal the ids of the stored nodes (as every graph built through `add_node`
has) and whose recorded edges are already reflected in the `depends_on` of
the target (as
`add_edge` guarantees for targets present at insertion time),
`from_dict (to_dict g)` reproduces the task, the node ids with their order,
the edge sequence exactly, and every serialized node field — everything
except the runtime-attached `schema` structure, which comes back as the
dataclass default `{}`. -/
theorem C1_roundtrip_amended (g : GenerationDAG)
    (hids : ∀ p ∈ g.nodes, p.1 = p.2.id)
    (hnd : (g.nodes.map Prod.fst).Nodup)
    (hsat : ∀ e ∈ g.edges, ∀ n, lookupNode g.nodes e.target = some n →
      e.source ∈ n.depends_on) :
    GenerationDAG.from_dict g.to_dict = stripSchemas g := by
  have h1 : (g.to_dict.nodes).foldl (fun d nr => d.add_node (nodeOfRecord nr))
      (GenerationDAG.mk g.task [] []) =
      GenerationDAG.mk g.task (g.nodes.map (fun p => (p.1, stripNode p.2))) [] := by
    show (g.nodes.map (fun p => nodeRecordOf p.2)).foldl
        (fun d nr => d.add_node (nodeOfRecord nr)) (GenerationDAG.mk g.task [] []) = _
    rw [List.foldl_map]
    exact foldl_add_node g.nodes (GenerationDAG.mk g.task [] [])
      hids (fun p _ q hq => absurd hq (List.not_mem_nil q)) hnd
  have h2 : GenerationDAG.from_dict g.to_dict =
      (g.to_dict.edges).foldl (fun d e => d.add_edge e)
        ((g.to_dict.nodes).foldl (fun d nr => d.add_node (nodeOfRecord nr))
          (GenerationDAG.mk g.task [] [])) := rfl
  rw [h2, h1]
  have hedges : g.to_dict.edges = g.edges := rfl
  rw [hedges]
  have hcond : ∀ e ∈ g.edges, ∀ n,
      lookupNode (GenerationDAG.mk g.task
        (g.nodes.map (fun p => (p.1, stripNode p.2))) []).nodes e.target = some n →
      e.source ∈ n.depends_on := by
    intro e he n hl
    have hl' : (lookupNode g.nodes e.target).map stripNode = some n := by
      rw [← lookupNode_strip]
      exact hl
    cases ho : lookupNode g.nodes e.target with
    | none => rw [ho] at hl'; cases hl'
    | some n0 =>
      rw [ho] at hl'
      have hn : stripNode n0 = n := by injection hl'
      have hmem := hsat e he n0 ho
      rw [← hn]
      exact hmem
  rw [foldl_add_edge g.edges _ hcond]
  show GenerationDAG.mk g.task (g.nodes.map (fun p => (p.1, stripNode p.2)))
    ([] ++ g.edges) = stripSchemas g
  rw [stripSchemas]
  simp

/-- Witness for the amended C1 at the concrete graph `a → b` (keys equal
ids, distinct, edge reflected in `depends_on`): the round trip reproduces the
graph up to the reset `schema` field. -/
theorem C1_roundtrip_witness :
    GenerationDAG.from_dict simpleChainGraph.to_dict = stripSchemas simpleChainGraph :=
  C1_roundtrip_amended simpleChainGraph (by decide) (by decide)
    (fun e he n hl => by
      have he' : e ∈ [({ source := "a", target := "b" } : DAGEdge)] := he
      rw [List.mem_singleton] at he'
      subst he'
      rw [show lookupNode simpleChainGraph.nodes "b" =
        some (DAGNode.mk "b" "s" "make b" [] ["a"] [] [] none) from rfl] at hl
      have hn : DAGNode.mk "b" "s" "make b" [] ["a"] [] [] none = n := by injection hl
      rw [← hn]
      decide)
